import Mathlib

/-!
Verification of the Alfresco directory-upload synchronizer (`src/main.py`).

The development shallowly embeds the synchronization engine of the script:
the remote HTTP API is an abstract interface returning tagged outcomes
(success / HTTP 409 conflict / transient error), the `UploadManager`
operations (`ensure_folder`, `file_exists`, `upload_file`,
`upload_directory`, `get_document_library_node`,
`calculate_total_files_and_size`, `format_size`) are translated as pure
functions over that interface, and every observable action (counter
updates, sleeps, session creation, remote calls) is recorded in an event
trace.  Statistics are obtained by folding the event trace, so that claims
about "every point during a run" become claims about prefixes of the trace.
-/

set_option linter.unnecessarySeqFocus false

namespace Alfresco

/-- Outcome of one HTTP request, as the script distinguishes them:
success, an `HTTPError` with status 409, or any other
`RequestException`/`HTTPError` (network error, non-409 status); the
`cause` tag keeps distinct transient failures distinguishable so that
"re-raises the last failure" is expressible. -/
inductive HttpOut (α : Type) where
  | ok (a : α)
  | conflict
  | transient (cause : Nat)
  deriving Repr, DecidableEq

/-- Exceptions that can escape an `UploadManager` operation. -/
inductive Err where
  /-- a transient `RequestException`/non-409 `HTTPError` re-raised after the
  retry budget is exhausted, tagged with the cause of the last attempt -/
  | transientE (cause : Nat)
  /-- an HTTP 409 `HTTPError` re-raised out of `file_exists` after its retry
  budget is exhausted -/
  | exists409
  /-- an error raised by `raise_for_status` inside the 409 handler of
  `ensure_folder`; it propagates uncaught because it is raised inside an
  `except` block -/
  | requeryE
  /-- `Exception("Pasta ... não encontrada após erro 409")` -/
  | folderVanished (name : String)
  /-- `OSError` from `os.path.getsize` at the start of `upload_file` -/
  | osError
  deriving Repr, DecidableEq

/-- Observable events of a run: individual statistics-counter updates
(`self.stats[...] += ...`), backoff sleeps, session lifecycle, remote
calls, and the completion/invocation markers used for ordering claims. -/
inductive Ev where
  | setTotals (tf tb : Nat)
  | incUploadedFiles
  | incUploadedBytes (n : Nat)
  | incSkippedFiles
  | incSkippedBytes (n : Nat)
  | incCreatedFolders
  | incSkippedFolders
  | sleep (seconds : Nat)
  | sessionCreate
  | sessionClose
  /-- `ensure_folder parent name` returned `ref` -/
  | ensureRet (parent : Nat) (name : String) (ref : Nat)
  /-- `upload_file` was invoked for file `name` under `parent` -/
  | uploadCall (parent : Nat) (name : String)
  | getFolders (parent : Nat)
  | getAll (parent : Nat)
  | getFiles (parent : Nat)
  | getRoot
  | postFolder (parent : Nat) (name : String)
  | postFile (parent : Nat) (name : String)
  deriving Repr, DecidableEq

/-- The `self.stats` dictionary of `UploadManager.__init__`. -/
structure Stats where
  total_files : Nat
  uploaded_files : Nat
  skipped_files : Nat
  created_folders : Nat
  skipped_folders : Nat
  total_size_bytes : Nat
  uploaded_size_bytes : Nat
  skipped_size_bytes : Nat
  deriving Repr, DecidableEq

/-- All counters start at zero (`UploadManager.__init__`). -/
def Stats.init : Stats := ⟨0, 0, 0, 0, 0, 0, 0, 0⟩

/-- Effect of one event on the statistics counters. -/
def applyEv (s : Stats) : Ev → Stats
  | .setTotals tf tb => { s with total_files := tf, total_size_bytes := tb }
  | .incUploadedFiles => { s with uploaded_files := s.uploaded_files + 1 }
  | .incUploadedBytes n => { s with uploaded_size_bytes := s.uploaded_size_bytes + n }
  | .incSkippedFiles => { s with skipped_files := s.skipped_files + 1 }
  | .incSkippedBytes n => { s with skipped_size_bytes := s.skipped_size_bytes + n }
  | .incCreatedFolders => { s with created_folders := s.created_folders + 1 }
  | .incSkippedFolders => { s with skipped_folders := s.skipped_folders + 1 }
  | _ => s

/-- Statistics after replaying a list of events from `s`. -/
def statsAfter (s : Stats) (evs : List Ev) : Stats := evs.foldl applyEv s

theorem statsAfter_nil (s : Stats) : statsAfter s [] = s := rfl

theorem statsAfter_cons (s : Stats) (e : Ev) (evs : List Ev) :
    statsAfter s (e :: evs) = statsAfter (applyEv s e) evs := rfl

theorem statsAfter_append (s : Stats) (a b : List Ev) :
    statsAfter s (a ++ b) = statsAfter (statsAfter s a) b := by
  simp [statsAfter]

/-! Counting functions over event traces, used to reason about how a trace
moves each counter. -/

def isUF : Ev → Bool
  | .incUploadedFiles => true
  | _ => false

def isSF : Ev → Bool
  | .incSkippedFiles => true
  | _ => false

def isCF : Ev → Bool
  | .incCreatedFolders => true
  | _ => false

def isSkF : Ev → Bool
  | .incSkippedFolders => true
  | _ => false

def isST : Ev → Bool
  | .setTotals _ _ => true
  | _ => false

def ubAmt : Ev → Nat
  | .incUploadedBytes n => n
  | _ => 0

def sbAmt : Ev → Nat
  | .incSkippedBytes n => n
  | _ => 0

theorem statsAfter_uploaded_files (s : Stats) (evs : List Ev) :
    (statsAfter s evs).uploaded_files = s.uploaded_files + evs.countP isUF := by
  induction evs generalizing s with
  | nil => simp [statsAfter]
  | cons e evs ih =>
    rw [statsAfter_cons, ih]
    cases e <;> simp [applyEv, isUF, List.countP_cons] <;> omega

theorem statsAfter_skipped_files (s : Stats) (evs : List Ev) :
    (statsAfter s evs).skipped_files = s.skipped_files + evs.countP isSF := by
  induction evs generalizing s with
  | nil => simp [statsAfter]
  | cons e evs ih =>
    rw [statsAfter_cons, ih]
    cases e <;> simp [applyEv, isSF, List.countP_cons] <;> omega

theorem statsAfter_created_folders (s : Stats) (evs : List Ev) :
    (statsAfter s evs).created_folders = s.created_folders + evs.countP isCF := by
  induction evs generalizing s with
  | nil => simp [statsAfter]
  | cons e evs ih =>
    rw [statsAfter_cons, ih]
    cases e <;> simp [applyEv, isCF, List.countP_cons] <;> omega

theorem statsAfter_skipped_folders (s : Stats) (evs : List Ev) :
    (statsAfter s evs).skipped_folders = s.skipped_folders + evs.countP isSkF := by
  induction evs generalizing s with
  | nil => simp [statsAfter]
  | cons e evs ih =>
    rw [statsAfter_cons, ih]
    cases e <;> simp [applyEv, isSkF, List.countP_cons] <;> omega

theorem statsAfter_uploaded_bytes (s : Stats) (evs : List Ev) :
    (statsAfter s evs).uploaded_size_bytes = s.uploaded_size_bytes + (evs.map ubAmt).sum := by
  induction evs generalizing s with
  | nil => simp [statsAfter]
  | cons e evs ih =>
    rw [statsAfter_cons, ih]
    cases e <;> simp [applyEv, ubAmt] <;> omega

theorem statsAfter_skipped_bytes (s : Stats) (evs : List Ev) :
    (statsAfter s evs).skipped_size_bytes = s.skipped_size_bytes + (evs.map sbAmt).sum := by
  induction evs generalizing s with
  | nil => simp [statsAfter]
  | cons e evs ih =>
    rw [statsAfter_cons, ih]
    cases e <;> simp [applyEv, sbAmt] <;> omega

theorem statsAfter_total_files (s : Stats) (evs : List Ev) (h : evs.countP isST = 0) :
    (statsAfter s evs).total_files = s.total_files := by
  induction evs generalizing s with
  | nil => simp [statsAfter]
  | cons e evs ih =>
    rw [statsAfter_cons]
    rw [List.countP_cons] at h
    have h2 : evs.countP isST = 0 := by omega
    cases e
    case setTotals tf tb => simp [isST] at h
    all_goals simp [applyEv, ih _ h2]

theorem statsAfter_total_bytes (s : Stats) (evs : List Ev) (h : evs.countP isST = 0) :
    (statsAfter s evs).total_size_bytes = s.total_size_bytes := by
  induction evs generalizing s with
  | nil => simp [statsAfter]
  | cons e evs ih =>
    rw [statsAfter_cons]
    rw [List.countP_cons] at h
    have h2 : evs.countP isST = 0 := by omega
    cases e
    case setTotals tf tb => simp [isST] at h
    all_goals simp [applyEv, ih _ h2]

/-! ## `UploadManager.format_size`

The Python function divides a byte count by `1024.0` while it is at least
`1024` and the unit index is below the last unit, then renders the value
with `f"{v:.2f} {unit}"`.  Dividing by `1024` is exact in IEEE-754 binary
floating point, so the loop is modelled over `ℚ`; the `:.2f` rendering is
modelled as round-half-to-even at two decimals, which is what Python
produces for exactly representable values. -/

def size_names : List String := ["B", "KB", "MB", "GB", "TB"]

/-- The `while bytes_size >= 1024 and i < len(size_names) - 1` loop.
Starting from `i = 0`, the guard `i < 4` bounds the loop to four
iterations, which the `fuel` argument makes structural. -/
def fsLoop : Nat → ℚ → Nat → ℚ × Nat
  | 0, v, i => (v, i)
  | fuel + 1, v, i => if 1024 ≤ v then fsLoop fuel (v / 1024) (i + 1) else (v, i)

/-- Floor of a nonnegative rational, computably. -/
def qfloor (q : ℚ) : Int := Int.fdiv q.num q.den

/-- Round to the nearest integer, ties to even (the rounding of Python's
`format` on an exactly representable value). -/
def rhe (q : ℚ) : Int :=
  let f := qfloor q
  let r := q - (f : ℚ)
  if r < 1 / 2 then f
  else if (1 : ℚ) / 2 < r then f + 1
  else if 2 ∣ f then f else f + 1

/-- Exactly two decimal digits, zero padded (`"05"`, `"50"`, ...). -/
def pad2 (r : Nat) : String := String.mk [Nat.digitChar (r / 10 % 10), Nat.digitChar (r % 10)]

/-- `f"{q:.2f}"` for a nonnegative rational `q`. -/
def decStr2 (q : ℚ) : String :=
  let m := (rhe (q * 100)).toNat
  toString (m / 100) ++ "." ++ pad2 (m % 100)

/-- `UploadManager.format_size` (src/main.py lines 101-112). -/
def format_size (bytes_size : Nat) : String :=
  if bytes_size = 0 then "0B"
  else
    let p := fsLoop 4 (bytes_size : ℚ) 0
    decStr2 p.1 ++ " " ++ size_names.getD p.2 "B"

/-- The unit index the spec describes: the number of divisions by 1024
needed to bring `n` under 1024, capped at index 4 (TB). -/
def unit_index (n : Nat) : Nat :=
  if n < 1024 then 0
  else if n < 1024 ^ 2 then 1
  else if n < 1024 ^ 3 then 2
  else if n < 1024 ^ 4 then 3
  else 4

theorem pad2_length (r : Nat) : (pad2 r).length = 2 := rfl

theorem fsLoop_eq (n : Nat) :
    fsLoop 4 (n : ℚ) 0 = ((n : ℚ) / 1024 ^ unit_index n, unit_index n) := by
  have h1024 : (0 : ℚ) < 1024 := by norm_num
  by_cases h0 : n < 1024
  · have hu : unit_index n = 0 := by unfold unit_index; rw [if_pos h0]
    have hv : ¬ (1024 : ℚ) ≤ (n : ℚ) := by exact_mod_cast Nat.not_le.mpr h0
    rw [hu]
    simp [fsLoop, hv]
  · have g0 : (1024 : ℚ) ≤ (n : ℚ) := by exact_mod_cast Nat.le_of_not_lt h0
    by_cases h1 : n < 1024 ^ 2
    · have hu : unit_index n = 1 := by unfold unit_index; rw [if_neg h0, if_pos h1]
      have hv : ¬ (1024 : ℚ) ≤ (n : ℚ) / 1024 := by
        rw [not_le, div_lt_iff₀ h1024]
        have : (n : ℚ) < (1024 : ℚ) ^ 2 := by exact_mod_cast h1
        nlinarith [this]
      rw [hu]
      simp only [fsLoop, if_pos g0, if_neg hv]
      norm_num
    · have g1 : (1024 : ℚ) ≤ (n : ℚ) / 1024 := by
        rw [le_div_iff₀ h1024]
        have : ((1024 : ℚ)) ^ 2 ≤ (n : ℚ) := by exact_mod_cast Nat.le_of_not_lt h1
        nlinarith [this]
      by_cases h2 : n < 1024 ^ 3
      · have hu : unit_index n = 2 := by unfold unit_index; rw [if_neg h0, if_neg h1, if_pos h2]
        have hv : ¬ (1024 : ℚ) ≤ (n : ℚ) / 1024 / 1024 := by
          rw [not_le, div_lt_iff₀ h1024, div_lt_iff₀ h1024]
          have : (n : ℚ) < (1024 : ℚ) ^ 3 := by exact_mod_cast h2
          nlinarith [this]
        rw [hu]
        simp only [fsLoop, if_pos g0, if_pos g1, if_neg hv]
        rw [div_div]
        norm_num
      · have g2 : (1024 : ℚ) ≤ (n : ℚ) / 1024 / 1024 := by
          rw [le_div_iff₀ h1024, le_div_iff₀ h1024]
          have : ((1024 : ℚ)) ^ 3 ≤ (n : ℚ) := by exact_mod_cast Nat.le_of_not_lt h2
          nlinarith [this]
        by_cases h3 : n < 1024 ^ 4
        · have hu : unit_index n = 3 := by
            unfold unit_index; rw [if_neg h0, if_neg h1, if_neg h2, if_pos h3]
          have hv : ¬ (1024 : ℚ) ≤ (n : ℚ) / 1024 / 1024 / 1024 := by
            rw [not_le, div_lt_iff₀ h1024, div_lt_iff₀ h1024, div_lt_iff₀ h1024]
            have : (n : ℚ) < (1024 : ℚ) ^ 4 := by exact_mod_cast h3
            nlinarith [this]
          rw [hu]
          simp only [fsLoop, if_pos g0, if_pos g1, if_pos g2, if_neg hv]
          rw [div_div, div_div]
          norm_num
        · have hu : unit_index n = 4 := by
            unfold unit_index; rw [if_neg h0, if_neg h1, if_neg h2, if_neg h3]
          have g3 : (1024 : ℚ) ≤ (n : ℚ) / 1024 / 1024 / 1024 := by
            rw [le_div_iff₀ h1024, le_div_iff₀ h1024, le_div_iff₀ h1024]
            have : ((1024 : ℚ)) ^ 4 ≤ (n : ℚ) := by exact_mod_cast Nat.le_of_not_lt h3
            nlinarith [this]
          rw [hu]
          simp only [fsLoop, if_pos g0, if_pos g1, if_pos g2, if_pos g3]
          rw [div_div, div_div, div_div]
          norm_num

/-- Claim C9, counterexample: at `n = 0` the code returns the literal
`"0B"`, not the two-decimal rendering `"0.00 B"` that the claimed
formatting rule (value rendered with exactly two decimal places, unit
separated by a space) produces for every byte count `n ≥ 0`. -/
theorem format_size_zero_counterexample :
    format_size 0 = "0B" ∧
    decStr2 ((0 : ℚ) / 1024 ^ unit_index 0) ++ " " ++ size_names.getD (unit_index 0) "B" =
      "0.00 B" ∧
    format_size 0 ≠ "0.00 B" := by
  refine ⟨rfl, ?_, by decide⟩
  norm_num [decStr2, rhe, qfloor, unit_index, pad2, size_names]
  decide

/-- Claim C9 (amended): for every byte count `n ≥ 1`, `format_size`
renders `n / 1024 ^ i` where `i` is the number of divisions by 1024
performed while the value is at least 1024, capped at the TB index 4, with
exactly two decimal places and the binary unit from B, KB, MB, GB, TB;
for `n = 0` it returns the literal string `"0B"`. -/
theorem format_size_spec :
    (∀ n : Nat, 1 ≤ n →
      format_size n =
        decStr2 ((n : ℚ) / 1024 ^ unit_index n) ++ " " ++ size_names.getD (unit_index n) "B" ∧
      (∃ a b, format_size n = a ++ "." ++ b ++ " " ++ size_names.getD (unit_index n) "B" ∧
        b.length = 2) ∧
      unit_index n ≤ 4) ∧
    format_size 0 = "0B" := by
  refine ⟨fun n hn => ?_, rfl⟩
  have hne : ¬ n = 0 := by omega
  have h1 : format_size n =
      decStr2 ((n : ℚ) / 1024 ^ unit_index n) ++ " " ++ size_names.getD (unit_index n) "B" := by
    unfold format_size
    rw [if_neg hne, fsLoop_eq]
  refine ⟨h1, ?_, ?_⟩
  · refine ⟨toString ((rhe (((n : ℚ) / 1024 ^ unit_index n) * 100)).toNat / 100),
      pad2 ((rhe (((n : ℚ) / 1024 ^ unit_index n) * 100)).toNat % 100), ?_, pad2_length _⟩
    rw [h1]
    simp [decStr2]
  · unfold unit_index
    split_ifs <;> norm_num

/-- Claim C9, witness: `format_size 1536 = "1.50 KB"`, as the amended
claim predicts (`1536 / 1024 = 1.5`, unit index 1 = KB). -/
theorem format_size_spec_witness :
    format_size 1536 =
      decStr2 ((1536 : ℚ) / 1024 ^ unit_index 1536) ++ " " ++
        size_names.getD (unit_index 1536) "B" ∧
    format_size 1536 = "1.50 KB" := by
  constructor
  · exact ((format_size_spec.1 1536 (by norm_num)).1 :)
  · norm_num [format_size, fsLoop, decStr2, rhe, qfloor, pad2, size_names]
    decide

/-! ## The remote interface and the `UploadManager` operations

The remote Alfresco API is abstracted as a state machine `RemoteIface σ`:
each request consumes the remote state and yields an `HttpOut` outcome.
Universally quantifying over `σ` lets the theorems cover every remote
behaviour (flaky, conflicting, adversarial); a deterministic "honest"
instance is given further below for the idempotence claim. -/

structure RemoteIface (σ : Type) where
  /-- `GET nodes/{parent}/children?where=(isFolder=true)` as `(name, id)` pairs -/
  listFolders : σ → Nat → HttpOut (List (String × Nat)) × σ
  /-- `GET nodes/{parent}/children` (unfiltered) as `(name, id, isFolder)` -/
  listAll : σ → Nat → HttpOut (List (String × Nat × Bool)) × σ
  /-- `POST nodes/{parent}/children` with `cm:folder`, returning the new id -/
  createFolder : σ → Nat → String → HttpOut Nat × σ
  /-- `GET nodes/{parent}/children?where=(isFile=true)` as names -/
  listFiles : σ → Nat → HttpOut (List String) × σ
  /-- multipart `POST nodes/{parent}/children` with the file content -/
  uploadFile : σ → Nat → String → HttpOut Unit × σ

/-- Run-local mutable context: the remote state plus whether
`self.session` is currently non-`None`. -/
structure RunSt (σ : Type) where
  rem : σ
  hasSession : Bool

/-- Events of `UploadManager.create_session`: the previous session (if
any) is closed first, then a fresh session is created. -/
def sessEvs (hasSession : Bool) : List Ev :=
  if hasSession then [.sessionClose, .sessionCreate] else [.sessionCreate]

/-- Result of one iteration of a `for attempt in range(max_retries)` body:
either the function finished (returned or raised an exception that the
handlers do not retry), or a retryable exception was caught.  The `Err`
payload of `retry` is the exception that will be re-raised if the attempt
budget is exhausted. -/
inductive AttRes (α : Type) where
  | done (r : Except Err α)
  | retry (e : Err)

/-- The `for attempt in range(3)` retry skeleton shared by
`get_document_library_node`, `ensure_folder`, `file_exists` and
`upload_file`: after the `attempt`-th retryable failure (`attempt < 2`)
the code sleeps `retry_delay * (attempt + 1)` and retries; after the third
failure the last exception is re-raised. -/
def retry3 {σ α : Type} (att : RunSt σ → AttRes α × RunSt σ × List Ev) (delay : Nat)
    (st : RunSt σ) : Except Err α × RunSt σ × List Ev :=
  match att st with
  | (.done r, st1, v1) => (r, st1, v1)
  | (.retry _, st1, v1) =>
    match att st1 with
    | (.done r, st2, v2) => (r, st2, v1 ++ .sleep (delay * 1) :: v2)
    | (.retry _, st2, v2) =>
      match att st2 with
      | (.done r, st3, v3) => (r, st3, v1 ++ .sleep (delay * 1) :: (v2 ++ .sleep (delay * 2) :: v3))
      | (.retry e, st3, v3) =>
        (.error e, st3, v1 ++ .sleep (delay * 1) :: (v2 ++ .sleep (delay * 2) :: v3))

/-- The `except requests.exceptions.HTTPError` 409 handler of
`ensure_folder` (src/main.py lines 232-256): log, `skipped_folders += 1`,
re-query the folder-filtered children; if the response list is non-empty
return the id of its FIRST entry (no name check); otherwise query the
unfiltered children and return the first entry matching the requested name
with `isFolder`; otherwise raise the "não encontrada após erro 409"
exception.  Errors raised by the re-queries propagate out of the handler
uncaught. -/
def branch409 {σ : Type} (I : RemoteIface σ) (parent : Nat) (name : String) (st : RunSt σ) :
    Except Err Nat × RunSt σ × List Ev :=
  match I.listFolders st.rem parent with
  | (.ok entries, r1) =>
    match entries with
    | e :: _ =>
      (.ok e.2, ⟨r1, st.hasSession⟩,
        [.incSkippedFolders, .getFolders parent, .ensureRet parent name e.2])
    | [] =>
      match I.listAll r1 parent with
      | (.ok l, r2) =>
        match l.find? (fun x => x.1 == name && x.2.2) with
        | some x =>
          (.ok x.2.1, ⟨r2, st.hasSession⟩,
            [.incSkippedFolders, .getFolders parent, .getAll parent, .ensureRet parent name x.2.1])
        | none =>
          (.error (.folderVanished name), ⟨r2, st.hasSession⟩,
            [.incSkippedFolders, .getFolders parent, .getAll parent])
      | (_, r2) =>
        (.error .requeryE, ⟨r2, st.hasSession⟩,
          [.incSkippedFolders, .getFolders parent, .getAll parent])
  | (_, r1) =>
    (.error .requeryE, ⟨r1, st.hasSession⟩, [.incSkippedFolders, .getFolders parent])

/-- One iteration of the `ensure_folder` retry loop (src/main.py lines
206-274): create a fresh session, list the folder children of `parent`,
return the id of a same-named folder if present (`skipped_folders += 1`),
otherwise create the folder (`created_folders += 1`).  An HTTP 409 from
either request enters `branch409`; any other failure is retryable. -/
def ensureAttempt {σ : Type} (I : RemoteIface σ) (parent : Nat) (name : String) (st : RunSt σ) :
    AttRes Nat × RunSt σ × List Ev :=
  let evs0 := sessEvs st.hasSession
  match I.listFolders st.rem parent with
  | (.ok entries, r1) =>
    match entries.find? (fun e => e.1 == name) with
    | some e =>
      (.done (.ok e.2), ⟨r1, true⟩,
        evs0 ++ [.getFolders parent, .incSkippedFolders, .ensureRet parent name e.2])
    | none =>
      match I.createFolder r1 parent name with
      | (.ok fid, r2) =>
        (.done (.ok fid), ⟨r2, true⟩,
          evs0 ++ [.getFolders parent, .postFolder parent name, .incCreatedFolders,
            .ensureRet parent name fid])
      | (.conflict, r2) =>
        let b := branch409 I parent name ⟨r2, true⟩
        (.done b.1, b.2.1, evs0 ++ [.getFolders parent, .postFolder parent name] ++ b.2.2)
      | (.transient c, r2) =>
        (.retry (.transientE c), ⟨r2, true⟩, evs0 ++ [.getFolders parent, .postFolder parent name])
  | (.conflict, r1) =>
    let b := branch409 I parent name ⟨r1, true⟩
    (.done b.1, b.2.1, evs0 ++ [.getFolders parent] ++ b.2.2)
  | (.transient c, r1) =>
    (.retry (.transientE c), ⟨r1, true⟩, evs0 ++ [.getFolders parent])

/-- `UploadManager.ensure_folder` (src/main.py lines 201-274):
`max_retries = 3`, `retry_delay = 900`. -/
def ensure_folder {σ : Type} (I : RemoteIface σ) (parent : Nat) (name : String) (st : RunSt σ) :
    Except Err Nat × RunSt σ × List Ev :=
  retry3 (ensureAttempt I parent name) 900 st

/-- One iteration of the `file_exists` retry loop (src/main.py lines
281-297): fresh session, list file children of `parent`, report whether
one is named `name`.  Any `RequestException` (including an HTTP 409) is
retried; the exception re-raised after the budget is the last one
caught. -/
def feAttempt {σ : Type} (I : RemoteIface σ) (parent : Nat) (name : String) (st : RunSt σ) :
    AttRes Bool × RunSt σ × List Ev :=
  let evs0 := sessEvs st.hasSession
  match I.listFiles st.rem parent with
  | (.ok names, r1) => (.done (.ok (names.contains name)), ⟨r1, true⟩, evs0 ++ [.getFiles parent])
  | (.conflict, r1) => (.retry .exists409, ⟨r1, true⟩, evs0 ++ [.getFiles parent])
  | (.transient c, r1) => (.retry (.transientE c), ⟨r1, true⟩, evs0 ++ [.getFiles parent])

/-- `UploadManager.file_exists` (src/main.py lines 276-297). -/
def file_exists {σ : Type} (I : RemoteIface σ) (parent : Nat) (name : String) (st : RunSt σ) :
    Except Err Bool × RunSt σ × List Ev :=
  retry3 (feAttempt I parent name) 900 st

/-- One iteration of the `upload_file` retry loop (src/main.py lines
307-358): fresh session, `file_exists` check (skip with
`skipped_files/skipped_size_bytes` if present), multipart upload (count as
uploaded on success).  An HTTP 409 — from the upload `POST` or re-raised
out of `file_exists` — is handled as "already exists, skipping"; any
other `RequestException` is retried. -/
def uploadAttempt {σ : Type} (I : RemoteIface σ) (parent : Nat) (name : String) (sz : Nat)
    (st : RunSt σ) : AttRes Unit × RunSt σ × List Ev :=
  let evs0 := sessEvs st.hasSession
  match file_exists I parent name ⟨st.rem, true⟩ with
  | (.ok true, st1, fevs) =>
    (.done (.ok ()), st1, evs0 ++ fevs ++ [.incSkippedFiles, .incSkippedBytes sz])
  | (.ok false, st1, fevs) =>
    match I.uploadFile st1.rem parent name with
    | (.ok _, r2) =>
      (.done (.ok ()), ⟨r2, st1.hasSession⟩,
        evs0 ++ fevs ++ [.postFile parent name, .incUploadedFiles, .incUploadedBytes sz])
    | (.conflict, r2) =>
      (.done (.ok ()), ⟨r2, st1.hasSession⟩,
        evs0 ++ fevs ++ [.postFile parent name, .incSkippedFiles, .incSkippedBytes sz])
    | (.transient c, r2) =>
      (.retry (.transientE c), ⟨r2, st1.hasSession⟩, evs0 ++ fevs ++ [.postFile parent name])
  | (.error .exists409, st1, fevs) =>
    (.done (.ok ()), st1, evs0 ++ fevs ++ [.incSkippedFiles, .incSkippedBytes sz])
  | (.error e, st1, fevs) => (.retry e, st1, evs0 ++ fevs)

/-- `UploadManager.upload_file` (src/main.py lines 299-358).  `fsize` is
`os.path.getsize(file_path)`, computed once before the loop; `none` models
an `OSError` that propagates uncaught. -/
def upload_file {σ : Type} (I : RemoteIface σ) (parent : Nat) (name : String)
    (fsize : Option Nat) (st : RunSt σ) : Except Err Unit × RunSt σ × List Ev :=
  match fsize with
  | none => (.error .osError, st, [.uploadCall parent name])
  | some sz =>
    let r := retry3 (uploadAttempt I parent name sz) 900 st
    (r.1, r.2.1, .uploadCall parent name :: r.2.2)

/-- One iteration of the `get_document_library_node` retry loop
(src/main.py lines 184-199): fresh session, `GET sites/{site}/containers/
documentLibrary`.  Both `RequestException` and `HTTPError` are retried. -/
def rootAttempt (env : Nat → HttpOut Nat) (st : RunSt Nat) : AttRes Nat × RunSt Nat × List Ev :=
  let evs0 := sessEvs st.hasSession
  match env st.rem with
  | .ok id => (.done (.ok id), ⟨st.rem + 1, true⟩, evs0 ++ [.getRoot])
  | .conflict => (.retry .exists409, ⟨st.rem + 1, true⟩, evs0 ++ [.getRoot])
  | .transient c => (.retry (.transientE c), ⟨st.rem + 1, true⟩, evs0 ++ [.getRoot])

/-- `UploadManager.get_document_library_node` (src/main.py lines 179-199):
`max_retries = 3`, `retry_delay = 5`; `env k` is the response to the
`k`-th request. -/
def get_document_library_node (env : Nat → HttpOut Nat) (st : RunSt Nat) :
    Except Err Nat × RunSt Nat × List Ev :=
  retry3 (rootAttempt env) 5 st

/-! ## The directory walk and `upload_directory`

`os.walk` is the only filesystem access of the engine: both the pre-scan
(`calculate_total_files_and_size`) and the main loop of `upload_directory`
iterate it top-down.  The local tree is therefore embedded as the walk
output itself: a list of entries, each carrying the directory's path
segments relative to `local_dir` (`[]` for the root, where
`relative_path == "."`) and its regular files.  A file's `size` is
`os.path.getsize`; `none` models a file whose size cannot be read
(`OSError`), which the pre-scan silently skips. -/

structure LFile where
  name : String
  size : Option Nat
  deriving Repr, DecidableEq

/-- One `(root, dirs, files)` item of `os.walk`, reduced to the relative
path segments of `root` and the files in it. -/
def WalkEntry : Type := List String × List LFile

/-- `UploadManager.calculate_total_files_and_size` (src/main.py lines
360-375): counts every file, sums the readable sizes. -/
def calculate_total_files_and_size (walk : List WalkEntry) : Nat × Nat :=
  ((walk.map (fun e => e.2.length)).sum,
   (walk.map (fun e => (e.2.map (fun f => f.size.getD 0)).sum)).sum)

/-- The `for part in parts: current_parent = self.ensure_folder(...)` loop
of `upload_directory`: each segment's resulting ref becomes the parent of
the next segment. -/
def processChain {σ : Type} (I : RemoteIface σ) (parent : Nat) :
    List String → RunSt σ → Except Err Nat × RunSt σ × List Ev
  | [], st => (.ok parent, st, [])
  | p :: ps, st =>
    match ensure_folder I parent p st with
    | (.error e, st1, evs) => (.error e, st1, evs)
    | (.ok r, st1, evs) =>
      let k := processChain I r ps st1
      (k.1, k.2.1, evs ++ k.2.2)

/-- The `for file in files: self.upload_file(...)` loop of
`upload_directory`. -/
def processFiles {σ : Type} (I : RemoteIface σ) (parent : Nat) :
    List LFile → RunSt σ → Except Err Unit × RunSt σ × List Ev
  | [], st => (.ok (), st, [])
  | f :: fs, st =>
    match upload_file I parent f.name f.size st with
    | (.error e, st1, evs) => (.error e, st1, evs)
    | (.ok _, st1, evs) =>
      let k := processFiles I parent fs st1
      (k.1, k.2.1, evs ++ k.2.2)

/-- The `for root, dirs, files in os.walk(local_dir)` loop of
`upload_directory`: for each directory the relative segment chain is
re-ensured from `parent_id`, then the directory's files are uploaded under
the resulting ref.  An uncaught exception aborts the remaining walk. -/
def processEntries {σ : Type} (I : RemoteIface σ) (root : Nat) :
    List WalkEntry → RunSt σ → Except Err Unit × RunSt σ × List Ev
  | [], st => (.ok (), st, [])
  | e :: es, st =>
    match processChain I root e.1 st with
    | (.error err, st1, evs) => (.error err, st1, evs)
    | (.ok cur, st1, evs) =>
      match processFiles I cur e.2 st1 with
      | (.error err, st2, evs2) => (.error err, st2, evs ++ evs2)
      | (.ok _, st2, evs2) =>
        let k := processEntries I root es st2
        (k.1, k.2.1, evs ++ (evs2 ++ k.2.2))

/-- `UploadManager.upload_directory` (src/main.py lines 377-409): compute
the totals once, store them in the stats, then walk. -/
def upload_directory {σ : Type} (I : RemoteIface σ) (walk : List WalkEntry) (parent_id : Nat)
    (st : RunSt σ) : Except Err Unit × RunSt σ × List Ev :=
  let t := calculate_total_files_and_size walk
  let k := processEntries I parent_id walk st
  (k.1, k.2.1, .setTotals t.1 t.2 :: k.2.2)

/-! ## A scripted remote, for concrete scenarios

Each request pops the next outcome of its kind; an exhausted script
answers with an empty success. -/

structure Script where
  lf : List (HttpOut (List (String × Nat)))
  la : List (HttpOut (List (String × Nat × Bool)))
  cf : List (HttpOut Nat)
  fl : List (HttpOut (List String))
  up : List (HttpOut Unit)
  deriving Repr, DecidableEq

def scriptIface : RemoteIface Script where
  listFolders := fun s _ => (s.lf.headD (.ok []), { s with lf := s.lf.tail })
  listAll := fun s _ => (s.la.headD (.ok []), { s with la := s.la.tail })
  createFolder := fun s _ _ => (s.cf.headD (.ok 0), { s with cf := s.cf.tail })
  listFiles := fun s _ => (s.fl.headD (.ok []), { s with fl := s.fl.tail })
  uploadFile := fun s _ _ => (s.up.headD (.ok ()), { s with up := s.up.tail })

/-! ## Event-trace bookkeeping lemmas -/

/-- Events that touch a statistics counter. -/
def isCounterEv : Ev → Bool
  | .setTotals _ _ => true
  | .incUploadedFiles => true
  | .incUploadedBytes _ => true
  | .incSkippedFiles => true
  | .incSkippedBytes _ => true
  | .incCreatedFolders => true
  | .incSkippedFolders => true
  | _ => false

/-- A trace with no counter events at all. -/
def noCounters (evs : List Ev) : Prop := ∀ e ∈ evs, isCounterEv e = false

/-- A trace that never moves the per-file counters nor the totals
(folder counters are allowed). -/
def noFileCounters (evs : List Ev) : Prop :=
  evs.countP isUF = 0 ∧ evs.countP isSF = 0 ∧ (evs.map ubAmt).sum = 0 ∧
    (evs.map sbAmt).sum = 0 ∧ evs.countP isST = 0

theorem noCounters_nil : noCounters [] := by simp [noCounters]

theorem noCounters_append {a b : List Ev} (ha : noCounters a) (hb : noCounters b) :
    noCounters (a ++ b) := by
  intro e he
  rcases List.mem_append.mp he with h | h
  · exact ha e h
  · exact hb e h

theorem noCounters_sessEvs (h : Bool) : noCounters (sessEvs h) := by
  cases h <;> simp [sessEvs, noCounters, isCounterEv]

theorem noCounters.noFileCounters {evs : List Ev} (h : noCounters evs) : noFileCounters evs := by
  refine ⟨?_, ?_, ?_, ?_, ?_⟩
  · refine List.countP_eq_zero.mpr fun e he hp => ?_
    have := h e he
    cases e <;> simp_all [isUF, isCounterEv]
  · refine List.countP_eq_zero.mpr fun e he hp => ?_
    have := h e he
    cases e <;> simp_all [isSF, isCounterEv]
  · refine List.sum_eq_zero fun x hx => ?_
    rcases List.mem_map.mp hx with ⟨e, he, rfl⟩
    have := h e he
    cases e <;> simp_all [ubAmt, isCounterEv]
  · refine List.sum_eq_zero fun x hx => ?_
    rcases List.mem_map.mp hx with ⟨e, he, rfl⟩
    have := h e he
    cases e <;> simp_all [sbAmt, isCounterEv]
  · refine List.countP_eq_zero.mpr fun e he hp => ?_
    have := h e he
    cases e <;> simp_all [isST, isCounterEv]

theorem noFileCounters_nil : noFileCounters [] := by simp [noFileCounters]

theorem noFileCounters_append {a b : List Ev} (ha : noFileCounters a) (hb : noFileCounters b) :
    noFileCounters (a ++ b) := by
  obtain ⟨a1, a2, a3, a4, a5⟩ := ha
  obtain ⟨b1, b2, b3, b4, b5⟩ := hb
  refine ⟨?_, ?_, ?_, ?_, ?_⟩ <;> simp [List.countP_append, a1, a2, a3, a4, a5, b1, b2, b3, b4, b5]

theorem noFileCounters_cons {e : Ev} {evs : List Ev} (he : isUF e = false) (he2 : isSF e = false)
    (he3 : ubAmt e = 0) (he4 : sbAmt e = 0) (he5 : isST e = false)
    (h : noFileCounters evs) : noFileCounters (e :: evs) := by
  obtain ⟨a1, a2, a3, a4, a5⟩ := h
  refine ⟨?_, ?_, ?_, ?_, ?_⟩ <;> simp [List.countP_cons, a1, a2, a3, a4, a5, he, he2, he3, he4, he5]

/-- If the budget is exhausted, the error re-raised by a `retry3` loop is
an exception some attempt classified as retryable, or an exception some
attempt finished with. -/
theorem retry3_error_cases {σ α : Type} (att : RunSt σ → AttRes α × RunSt σ × List Ev)
    (delay : Nat) (st : RunSt σ) (e : Err) (h : (retry3 att delay st).1 = .error e) :
    (∃ s1 s2 v, att s1 = (.done (.error e), s2, v)) ∨
    (∃ s1 s2 v, att s1 = (.retry e, s2, v)) := by
  unfold retry3 at h
  split at h
  next r st1 v1 heq =>
    simp at h
    exact Or.inl ⟨st, st1, v1, by rw [heq, h]⟩
  next e1 st1 v1 heq1 =>
    split at h
    next r st2 v2 heq2 =>
      simp at h
      exact Or.inl ⟨st1, st2, v2, by rw [heq2, h]⟩
    next e2 st2 v2 heq2 =>
      split at h
      next r st3 v3 heq3 =>
        simp at h
        exact Or.inl ⟨st2, st3, v3, by rw [heq3, h]⟩
      next e3 st3 v3 heq3 =>
        simp at h
        exact Or.inr ⟨st2, st3, v3, by rw [heq3, h]⟩

/-- A `file_exists` attempt that finishes returns a boolean; it never
finishes with an exception of its own. -/
theorem feAttempt_done {σ : Type} {I : RemoteIface σ} {p : Nat} {n : String} {st s : RunSt σ}
    {r : Except Err Bool} {v : List Ev} (h : feAttempt I p n st = (.done r, s, v)) :
    ∃ b, r = .ok b := by
  unfold feAttempt at h
  split at h <;> simp only [Prod.mk.injEq, AttRes.done.injEq] at h
  · exact ⟨_, h.1.symm⟩
  · exact absurd h.1 (by simp)
  · exact absurd h.1 (by simp)

/-- A retried `file_exists` attempt caught an HTTP 409 or a transient
failure. -/
theorem feAttempt_retry {σ : Type} {I : RemoteIface σ} {p : Nat} {n : String} {st s : RunSt σ}
    {e : Err} {v : List Ev} (h : feAttempt I p n st = (.retry e, s, v)) :
    e = .exists409 ∨ ∃ c, e = .transientE c := by
  unfold feAttempt at h
  split at h <;> simp only [Prod.mk.injEq, AttRes.retry.injEq] at h
  · exact absurd h.1 (by simp)
  · exact Or.inl h.1.symm
  · exact Or.inr ⟨_, h.1.symm⟩

/-- The exceptions `file_exists` can raise: the re-raised 409, or the last
transient failure. -/
theorem file_exists_error_cases {σ : Type} (I : RemoteIface σ) (p : Nat) (n : String)
    (st : RunSt σ) (e : Err) (h : (file_exists I p n st).1 = .error e) :
    e = .exists409 ∨ ∃ c, e = .transientE c := by
  rcases retry3_error_cases _ _ _ _ h with ⟨s1, s2, v, hd⟩ | ⟨s1, s2, v, hr⟩
  · rcases feAttempt_done hd with ⟨b, hb⟩
    exact absurd hb (by simp)
  · exact feAttempt_retry hr

/-- An `upload_file` attempt that finishes always succeeds (upload,
skip-on-exists or skip-on-409): a 409 never makes an attempt finish with
an exception. -/
theorem uploadAttempt_done {σ : Type} {I : RemoteIface σ} {p : Nat} {n : String} {sz : Nat}
    {st s : RunSt σ} {r : Except Err Unit} {v : List Ev}
    (h : uploadAttempt I p n sz st = (.done r, s, v)) : r = .ok () := by
  unfold uploadAttempt at h
  split at h
  · simp only [Prod.mk.injEq, AttRes.done.injEq] at h
    exact h.1.symm
  · split at h <;> simp only [Prod.mk.injEq, AttRes.done.injEq] at h
    · exact h.1.symm
    · exact h.1.symm
    · exact absurd h.1 (by simp)
  · simp only [Prod.mk.injEq, AttRes.done.injEq] at h
    exact h.1.symm
  · simp only [Prod.mk.injEq, AttRes.done.injEq] at h
    exact absurd h.1 (by simp)

/-- A retried `upload_file` attempt caught a transient failure. -/
theorem uploadAttempt_retry {σ : Type} {I : RemoteIface σ} {p : Nat} {n : String} {sz : Nat}
    {st s : RunSt σ} {e : Err} {v : List Ev}
    (h : uploadAttempt I p n sz st = (.retry e, s, v)) : ∃ c, e = .transientE c := by
  unfold uploadAttempt at h
  split at h
  · simp only [Prod.mk.injEq, AttRes.retry.injEq] at h
    exact absurd h.1 (by simp)
  · split at h <;> simp only [Prod.mk.injEq, AttRes.retry.injEq] at h
    · exact absurd h.1 (by simp)
    · exact absurd h.1 (by simp)
    · exact ⟨_, h.1.symm⟩
  · simp only [Prod.mk.injEq, AttRes.retry.injEq] at h
    exact absurd h.1 (by simp)
  next e2 st1 fevs hne heq =>
    simp only [Prod.mk.injEq, AttRes.retry.injEq] at h
    rcases file_exists_error_cases I p n ⟨st.rem, true⟩ e2 (by rw [heq]) with h409 | ⟨c, hc⟩
    · exact absurd h409 hne
    · exact ⟨c, h.1.symm.trans hc⟩

/-- The only exceptions `upload_file` can raise for a readable file are
exhausted transient failures; a 409 is never one of them. -/
theorem upload_file_error_cases {σ : Type} (I : RemoteIface σ) (p : Nat) (n : String) (sz : Nat)
    (st : RunSt σ) (e : Err) (h : (upload_file I p n (some sz) st).1 = .error e) :
    ∃ c, e = .transientE c := by
  unfold upload_file at h
  simp only at h
  have h2 : (retry3 (uploadAttempt I p n sz) 900 st).1 = .error e := h
  rcases retry3_error_cases _ _ _ _ h2 with ⟨s1, s2, v, hd⟩ | ⟨s1, s2, v, hr⟩
  · exact absurd (uploadAttempt_done hd) (by simp)
  · exact uploadAttempt_retry hr

/-- The three possible outcomes of the 409 handler of `ensure_folder`:
reuse of some existing ref, a propagated re-query error, or the
folder-vanished exception. -/
theorem branch409_cases {σ : Type} {I : RemoteIface σ} {p : Nat} {n : String} {st s2 : RunSt σ}
    {res : Except Err Nat} {evs : List Ev} (h : branch409 I p n st = (res, s2, evs)) :
    (∃ r, res = .ok r) ∨ res = .error .requeryE ∨ res = .error (.folderVanished n) := by
  unfold branch409 at h
  split at h
  · split at h
    · simp only [Prod.mk.injEq] at h
      exact Or.inl ⟨_, h.1.symm⟩
    · split at h
      · split at h <;> simp only [Prod.mk.injEq] at h
        · exact Or.inl ⟨_, h.1.symm⟩
        · exact Or.inr (Or.inr h.1.symm)
      · simp only [Prod.mk.injEq] at h
        exact Or.inr (Or.inl h.1.symm)
  · simp only [Prod.mk.injEq] at h
    exact Or.inr (Or.inl h.1.symm)

/-! ## Equation lemmas for the retry loop -/

theorem retry3_done {σ α : Type} {att : RunSt σ → AttRes α × RunSt σ × List Ev} {d : Nat}
    {st st1 : RunSt σ} {r : Except Err α} {v1 : List Ev} (h : att st = (.done r, st1, v1)) :
    retry3 att d st = (r, st1, v1) := by
  unfold retry3
  simp only [h]

theorem retry3_retry1 {σ α : Type} {att : RunSt σ → AttRes α × RunSt σ × List Ev} {d : Nat}
    {st st1 st2 : RunSt σ} {e1 : Err} {r : Except Err α} {v1 v2 : List Ev}
    (h1 : att st = (.retry e1, st1, v1)) (h2 : att st1 = (.done r, st2, v2)) :
    retry3 att d st = (r, st2, v1 ++ .sleep (d * 1) :: v2) := by
  unfold retry3
  simp only [h1, h2]

theorem retry3_retry2 {σ α : Type} {att : RunSt σ → AttRes α × RunSt σ × List Ev} {d : Nat}
    {st st1 st2 st3 : RunSt σ} {e1 e2 : Err} {r : Except Err α} {v1 v2 v3 : List Ev}
    (h1 : att st = (.retry e1, st1, v1)) (h2 : att st1 = (.retry e2, st2, v2))
    (h3 : att st2 = (.done r, st3, v3)) :
    retry3 att d st = (r, st3, v1 ++ .sleep (d * 1) :: (v2 ++ .sleep (d * 2) :: v3)) := by
  unfold retry3
  simp only [h1, h2, h3]

theorem retry3_retry3 {σ α : Type} {att : RunSt σ → AttRes α × RunSt σ × List Ev} {d : Nat}
    {st st1 st2 st3 : RunSt σ} {e1 e2 e3 : Err} {v1 v2 v3 : List Ev}
    (h1 : att st = (.retry e1, st1, v1)) (h2 : att st1 = (.retry e2, st2, v2))
    (h3 : att st2 = (.retry e3, st3, v3)) :
    retry3 att d st = (.error e3, st3, v1 ++ .sleep (d * 1) :: (v2 ++ .sleep (d * 2) :: v3)) := by
  unfold retry3
  simp only [h1, h2, h3]

theorem retry3_noCounters {σ α : Type} {att : RunSt σ → AttRes α × RunSt σ × List Ev} {d : Nat}
    (hatt : ∀ s, noCounters (att s).2.2) (st : RunSt σ) :
    noCounters (retry3 att d st).2.2 := by
  have hs : ∀ k, noCounters [Ev.sleep k] := by
    intro k e he
    simp at he
    subst he
    rfl
  rcases h1 : att st with ⟨a1, st1, v1⟩
  have hv1 : noCounters v1 := by have := hatt st; rw [h1] at this; exact this
  cases a1 with
  | done r => rw [retry3_done h1]; exact hv1
  | retry e1 =>
    rcases h2 : att st1 with ⟨a2, st2, v2⟩
    have hv2 : noCounters v2 := by have := hatt st1; rw [h2] at this; exact this
    cases a2 with
    | done r =>
      rw [retry3_retry1 h1 h2]
      exact noCounters_append hv1 (noCounters_append (hs _) hv2)
    | retry e2 =>
      rcases h3 : att st2 with ⟨a3, st3, v3⟩
      have hv3 : noCounters v3 := by have := hatt st2; rw [h3] at this; exact this
      cases a3 with
      | done r =>
        rw [retry3_retry2 h1 h2 h3]
        exact noCounters_append hv1 (noCounters_append (hs _)
          (noCounters_append hv2 (noCounters_append (hs _) hv3)))
      | retry e3 =>
        rw [retry3_retry3 h1 h2 h3]
        exact noCounters_append hv1 (noCounters_append (hs _)
          (noCounters_append hv2 (noCounters_append (hs _) hv3)))

theorem noCounters_ev_cons {e : Ev} {evs : List Ev} (he : isCounterEv e = false)
    (h : noCounters evs) : noCounters (e :: evs) := by
  intro x hx
  rcases List.mem_cons.mp hx with rfl | hx2
  · exact he
  · exact h x hx2

theorem feAttempt_noCounters {σ : Type} (I : RemoteIface σ) (p : Nat) (n : String)
    (st : RunSt σ) : noCounters (feAttempt I p n st).2.2 := by
  unfold feAttempt
  rcases h : I.listFiles st.rem p with ⟨o, r1⟩
  have hg : noCounters [Ev.getFiles p] := by
    intro e he
    simp at he
    subst he
    rfl
  cases o <;> exact noCounters_append (noCounters_sessEvs _) hg

/-- `file_exists` never touches a statistics counter. -/
theorem file_exists_noCounters {σ : Type} (I : RemoteIface σ) (p : Nat) (n : String)
    (st : RunSt σ) : noCounters (file_exists I p n st).2.2 :=
  retry3_noCounters (feAttempt_noCounters I p n) st

/-! ## Claims C1, C2 and C10 -/

/-- Claim C1: the spec says that when `ensure_folder` receives a 409 from
the create request and the folder-filtered re-query contains a folder
whose name equals the requested one, the ref of that same-named folder is
returned.  The code instead returns the id of the FIRST entry of the
re-query response without any name check (src/main.py line 246).  Here
the re-query returns `[("other", 5), ("target", 7)]` for requested name
`"target"`: the code returns ref 5 — the folder named `"other"` — even
though the same-named folder `("target", 7)` is present. -/
theorem ensure_folder_409_wrong_ref :
    (ensure_folder scriptIface 1 "target"
        ⟨⟨[.ok [("other", 5)], .ok [("other", 5), ("target", 7)]], [], [.conflict], [], []⟩,
          false⟩).1 = .ok 5 ∧
    ("target", 7) ∈ [("other", (5 : Nat)), ("target", 7)] ∧ (5 : Nat) ≠ 7 :=
  ⟨rfl, by simp, by simp⟩

/-- Claim C2, counterexample: a sync run in which folder creation answers
409 while both resolving re-queries return empty lists aborts with the
fatal `folderVanished` error — a Conflict that does surface as a run-fatal
error, contrary to the claim. -/
theorem conflict_fatal_counterexample :
    (upload_directory scriptIface [(["x"], [])] 1
        ⟨⟨[.ok [], .ok []], [.ok []], [.conflict], [], []⟩, false⟩).1 =
      .error (.folderVanished "x") := rfl

/-- Claim C2 (amended): a 409 during file upload never surfaces as an
error — `upload_file` can only fail with an `OSError` stand-in or an
exhausted transient failure, and a conflicting upload attempt is counted
as a skip; a 409 during folder creation is resolved into reuse of an
existing folder's ref whenever the resolving re-queries succeed and find
a folder, but aborts the run with the propagated re-query error or the
folder-vanished error otherwise. -/
theorem conflict_resolution_amended :
    (∀ (σ : Type) (I : RemoteIface σ) (p : Nat) (n : String) (sz : Nat) (st : RunSt σ) (e : Err),
      (upload_file I p n (some sz) st).1 = .error e → ∃ c, e = .transientE c) ∧
    (∀ (σ : Type) (I : RemoteIface σ) (p : Nat) (n : String) (st s2 : RunSt σ)
      (res : Except Err Nat) (evs : List Ev), branch409 I p n st = (res, s2, evs) →
      (∃ r, res = .ok r) ∨ res = .error .requeryE ∨ res = .error (.folderVanished n)) ∧
    (∀ (σ : Type) (I : RemoteIface σ) (p : Nat) (n : String) (sz : Nat) (st st1 : RunSt σ)
      (fevs : List Ev) (r2 : σ),
      file_exists I p n ⟨st.rem, true⟩ = (.ok false, st1, fevs) →
      I.uploadFile st1.rem p n = (.conflict, r2) →
      (upload_file I p n (some sz) st).1 = .ok () ∧
      ∀ s : Stats,
        (statsAfter s (upload_file I p n (some sz) st).2.2).skipped_files =
          s.skipped_files + 1 ∧
        (statsAfter s (upload_file I p n (some sz) st).2.2).skipped_size_bytes =
          s.skipped_size_bytes + sz) := by
  refine ⟨fun σ I p n sz st e h => upload_file_error_cases I p n sz st e h,
    fun σ I p n st s2 res evs h => branch409_cases h, ?_⟩
  intro σ I p n sz st st1 fevs r2 hfe hup
  have ha : uploadAttempt I p n sz st =
      (.done (.ok ()), ⟨r2, st1.hasSession⟩,
        sessEvs st.hasSession ++ fevs ++ [.postFile p n, .incSkippedFiles, .incSkippedBytes sz]) := by
    unfold uploadAttempt
    simp only [hfe, hup]
  have hq : upload_file I p n (some sz) st =
      (.ok (), ⟨r2, st1.hasSession⟩,
        .uploadCall p n ::
          (sessEvs st.hasSession ++ fevs ++
            [.postFile p n, .incSkippedFiles, .incSkippedBytes sz])) := by
    unfold upload_file
    simp only [retry3_done ha]
  rw [hq]
  have hfn : noFileCounters fevs := by
    have := file_exists_noCounters I p n ⟨st.rem, true⟩
    rw [hfe] at this
    exact this.noFileCounters
  have hsn : noFileCounters (sessEvs st.hasSession) :=
    (noCounters_sessEvs st.hasSession).noFileCounters
  refine ⟨rfl, fun s => ⟨?_, ?_⟩⟩
  · rw [statsAfter_skipped_files]
    simp [List.countP_cons, List.countP_append, isSF, hfn.2.1, hsn.2.1]
  · rw [statsAfter_skipped_bytes]
    simp [List.countP_cons, List.countP_append, sbAmt, hfn.2.2.2.1, hsn.2.2.2.1]

/-- Claim C2, witness: a concrete conflicting upload is counted as a
skip with the right byte size and the call returns successfully. -/
theorem conflict_resolution_amended_witness :
    (upload_file scriptIface 9 "f.txt" (some 44)
        ⟨⟨[], [], [], [.ok []], [.conflict]⟩, false⟩).1 = .ok () ∧
    (statsAfter Stats.init
        (upload_file scriptIface 9 "f.txt" (some 44)
          ⟨⟨[], [], [], [.ok []], [.conflict]⟩, false⟩).2.2).skipped_files = 0 + 1 ∧
    (statsAfter Stats.init
        (upload_file scriptIface 9 "f.txt" (some 44)
          ⟨⟨[], [], [], [.ok []], [.conflict]⟩, false⟩).2.2).skipped_size_bytes = 0 + 44 := by
  have h := (conflict_resolution_amended.2.2 Script scriptIface 9 "f.txt" 44
    ⟨⟨[], [], [], [.ok []], [.conflict]⟩, false⟩ ⟨⟨[], [], [], [], [.conflict]⟩, true⟩
    [.sessionClose, .sessionCreate, .getFiles 9] ⟨[], [], [], [], []⟩ rfl rfl)
  exact ⟨h.1, (h.2 Stats.init).1, (h.2 Stats.init).2⟩

/-- The events of the 409 handler always begin with the `skipped_folders`
increment followed by the re-query, and contain no further
`skipped_folders` increment. -/
theorem branch409_events {σ : Type} {I : RemoteIface σ} {p : Nat} {n : String} {st s2 : RunSt σ}
    {res : Except Err Nat} {evs : List Ev} (h : branch409 I p n st = (res, s2, evs)) :
    ∃ rest, evs = .incSkippedFolders :: .getFolders p :: rest ∧ rest.countP isSkF = 0 := by
  unfold branch409 at h
  split at h
  · split at h
    · simp only [Prod.mk.injEq] at h
      exact ⟨_, h.2.2.symm, by simp [isSkF]⟩
    · split at h
      · split at h <;> simp only [Prod.mk.injEq] at h
        · exact ⟨_, h.2.2.symm, by simp [isSkF]⟩
        · exact ⟨_, h.2.2.symm, by simp [isSkF]⟩
      · simp only [Prod.mk.injEq] at h
        exact ⟨_, h.2.2.symm, by simp [isSkF]⟩
  · simp only [Prod.mk.injEq] at h
    exact ⟨_, h.2.2.symm, by simp [isSkF]⟩

/-- Claim C10: in a folder-ensure call whose create request answers 409,
the `skipped_folders` increment is recorded before the resolving re-query
is issued, and the whole call moves `skipped_folders` by exactly one —
whatever the outcome of the resolution, so in particular the increment is
not rolled back when the resolution fails and the call raises. -/
theorem ensure_folder_409_counts_skip_first {σ : Type} (I : RemoteIface σ) (p : Nat) (n : String)
    (st : RunSt σ) (entries : List (String × Nat)) (r1 r2 : σ)
    (h1 : I.listFolders st.rem p = (.ok entries, r1))
    (h2 : entries.find? (fun e => e.1 == n) = none)
    (h3 : I.createFolder r1 p n = (.conflict, r2)) :
    (∃ rest, (ensure_folder I p n st).2.2 =
        sessEvs st.hasSession ++
          .getFolders p :: .postFolder p n :: .incSkippedFolders :: .getFolders p :: rest) ∧
    ∀ s : Stats,
      (statsAfter s (ensure_folder I p n st).2.2).skipped_folders = s.skipped_folders + 1 := by
  rcases hb : branch409 I p n ⟨r2, true⟩ with ⟨res, s2, bevs⟩
  have ha : ensureAttempt I p n st =
      (.done res, s2, sessEvs st.hasSession ++ [.getFolders p, .postFolder p n] ++ bevs) := by
    unfold ensureAttempt
    simp only [h1, h2, h3, hb]
  have he : ensure_folder I p n st =
      (res, s2, sessEvs st.hasSession ++ [.getFolders p, .postFolder p n] ++ bevs) := by
    unfold ensure_folder
    rw [retry3_done ha]
  rcases branch409_events hb with ⟨rest, hrest, hcnt⟩
  rw [he]
  constructor
  · exact ⟨rest, by rw [hrest]; simp⟩
  · intro s
    rw [statsAfter_skipped_folders]
    have hse : (sessEvs st.hasSession).countP isSkF = 0 := by
      cases st.hasSession <;> simp [sessEvs, isSkF]
    simp [hrest, List.countP_append, List.countP_cons, isSkF, hse, hcnt]

/-- Claim C10, witness: a concrete conflicted folder-ensure whose
resolution fails with the folder-vanished error still counts the folder
as skipped. -/
theorem ensure_folder_409_counts_skip_first_witness :
    (∃ rest, (ensure_folder scriptIface 1 "x"
        ⟨⟨[.ok [], .ok []], [.ok []], [.conflict], [], []⟩, false⟩).2.2 =
        sessEvs false ++
          .getFolders 1 :: .postFolder 1 "x" :: .incSkippedFolders :: .getFolders 1 :: rest) ∧
    ∀ s : Stats,
      (statsAfter s (ensure_folder scriptIface 1 "x"
          ⟨⟨[.ok [], .ok []], [.ok []], [.conflict], [], []⟩, false⟩).2.2).skipped_folders =
        s.skipped_folders + 1 :=
  ensure_folder_409_counts_skip_first scriptIface 1 "x"
    ⟨⟨[.ok [], .ok []], [.ok []], [.conflict], [], []⟩, false⟩ []
    ⟨[.ok []], [.ok []], [.conflict], [], []⟩ ⟨[.ok []], [.ok []], [], [], []⟩ rfl rfl rfl

/-! ## Claims C6 and C7: the retry policy -/

theorem sess_rest {A B v : List Ev} {h0 : Bool} (hv : sessEvs h0 ++ A ++ B = v) :
    ∃ rest, v = sessEvs h0 ++ rest :=
  ⟨A ++ B, by rw [← hv]; simp⟩

theorem ensureAttempt_sess_inv {σ : Type} {I : RemoteIface σ} {p : Nat} {n : String}
    {st s : RunSt σ} {a : AttRes Nat} {v : List Ev}
    (h : ensureAttempt I p n st = (a, s, v)) :
    ∃ rest, v = sessEvs st.hasSession ++ rest := by
  unfold ensureAttempt at h
  split at h
  · split at h
    · simp only [Prod.mk.injEq] at h
      exact ⟨_, h.2.2.symm⟩
    · split at h <;> simp only [Prod.mk.injEq] at h
      · exact ⟨_, h.2.2.symm⟩
      · exact sess_rest h.2.2
      · exact ⟨_, h.2.2.symm⟩
  · simp only [Prod.mk.injEq] at h
    exact sess_rest h.2.2
  · simp only [Prod.mk.injEq] at h
    exact ⟨_, h.2.2.symm⟩

theorem ensureAttempt_sess {σ : Type} (I : RemoteIface σ) (p : Nat) (n : String) (st : RunSt σ) :
    ∃ rest, (ensureAttempt I p n st).2.2 = sessEvs st.hasSession ++ rest := by
  rcases h : ensureAttempt I p n st with ⟨a, s, v⟩
  exact ensureAttempt_sess_inv h

theorem feAttempt_sess {σ : Type} (I : RemoteIface σ) (p : Nat) (n : String) (st : RunSt σ) :
    ∃ rest, (feAttempt I p n st).2.2 = sessEvs st.hasSession ++ rest := by
  unfold feAttempt
  rcases h1 : I.listFiles st.rem p with ⟨o, r1⟩
  cases o <;> exact ⟨[.getFiles p], rfl⟩

theorem uploadAttempt_sess_inv {σ : Type} {I : RemoteIface σ} {p : Nat} {n : String} {sz : Nat}
    {st s : RunSt σ} {a : AttRes Unit} {v : List Ev}
    (h : uploadAttempt I p n sz st = (a, s, v)) :
    ∃ rest, v = sessEvs st.hasSession ++ rest := by
  unfold uploadAttempt at h
  split at h
  · simp only [Prod.mk.injEq] at h
    exact sess_rest h.2.2
  · split at h <;> simp only [Prod.mk.injEq] at h
    · exact sess_rest h.2.2
    · exact sess_rest h.2.2
    · exact sess_rest h.2.2
  · simp only [Prod.mk.injEq] at h
    exact sess_rest h.2.2
  · simp only [Prod.mk.injEq] at h
    exact ⟨_, h.2.2.symm⟩

theorem uploadAttempt_sess {σ : Type} (I : RemoteIface σ) (p : Nat) (n : String) (sz : Nat)
    (st : RunSt σ) : ∃ rest, (uploadAttempt I p n sz st).2.2 = sessEvs st.hasSession ++ rest := by
  rcases h : uploadAttempt I p n sz st with ⟨a, s, v⟩
  exact uploadAttempt_sess_inv h

theorem rootAttempt_sess (env : Nat → HttpOut Nat) (st : RunSt Nat) :
    ∃ rest, (rootAttempt env st).2.2 = sessEvs st.hasSession ++ rest := by
  unfold rootAttempt
  cases h1 : env st.rem <;> exact ⟨[.getRoot], rfl⟩

/-- Claim C6: the retry policy.  The first conjuncts give the behaviour
of the shared `for attempt in range(3)` skeleton: a transient failure on
attempt `k ∈ {1, 2}` sleeps exactly `delay * k` before the next attempt,
and after three transient failures the LAST failure is re-raised; the next
conjuncts identify the four remote operations as instances of that
skeleton with their base delays (900 s for folder/file operations, 5 s for
root-container resolution); then every attempt of every operation starts
by constructing a fresh session, closing the previous one first when one
exists; finally an exception from a folder-ensure chain aborts the whole
`upload_directory` run with that same exception. -/
theorem retry_policy :
    (∀ (σ α : Type) (att : RunSt σ → AttRes α × RunSt σ × List Ev) (d : Nat)
      (st st1 st2 : RunSt σ) (e1 : Err) (r : Except Err α) (v1 v2 : List Ev),
      att st = (.retry e1, st1, v1) → att st1 = (.done r, st2, v2) →
      retry3 att d st = (r, st2, v1 ++ .sleep (d * 1) :: v2)) ∧
    (∀ (σ α : Type) (att : RunSt σ → AttRes α × RunSt σ × List Ev) (d : Nat)
      (st st1 st2 st3 : RunSt σ) (e1 e2 : Err) (r : Except Err α) (v1 v2 v3 : List Ev),
      att st = (.retry e1, st1, v1) → att st1 = (.retry e2, st2, v2) →
      att st2 = (.done r, st3, v3) →
      retry3 att d st = (r, st3, v1 ++ .sleep (d * 1) :: (v2 ++ .sleep (d * 2) :: v3))) ∧
    (∀ (σ α : Type) (att : RunSt σ → AttRes α × RunSt σ × List Ev) (d : Nat)
      (st st1 st2 st3 : RunSt σ) (e1 e2 e3 : Err) (v1 v2 v3 : List Ev),
      att st = (.retry e1, st1, v1) → att st1 = (.retry e2, st2, v2) →
      att st2 = (.retry e3, st3, v3) →
      retry3 att d st = (.error e3, st3, v1 ++ .sleep (d * 1) :: (v2 ++ .sleep (d * 2) :: v3))) ∧
    (∀ (σ : Type) (I : RemoteIface σ) (p : Nat) (n : String) (st : RunSt σ),
      ensure_folder I p n st = retry3 (ensureAttempt I p n) 900 st ∧
      file_exists I p n st = retry3 (feAttempt I p n) 900 st) ∧
    (∀ (σ : Type) (I : RemoteIface σ) (p : Nat) (n : String) (sz : Nat) (st : RunSt σ),
      upload_file I p n (some sz) st =
        ((retry3 (uploadAttempt I p n sz) 900 st).1, (retry3 (uploadAttempt I p n sz) 900 st).2.1,
          .uploadCall p n :: (retry3 (uploadAttempt I p n sz) 900 st).2.2)) ∧
    (∀ (env : Nat → HttpOut Nat) (st : RunSt Nat),
      get_document_library_node env st = retry3 (rootAttempt env) 5 st) ∧
    (sessEvs true = [.sessionClose, .sessionCreate] ∧ sessEvs false = [.sessionCreate]) ∧
    (∀ (σ : Type) (I : RemoteIface σ) (p : Nat) (n : String) (sz : Nat) (st : RunSt σ)
      (env : Nat → HttpOut Nat) (stN : RunSt Nat),
      (∃ rest, (ensureAttempt I p n st).2.2 = sessEvs st.hasSession ++ rest) ∧
      (∃ rest, (feAttempt I p n st).2.2 = sessEvs st.hasSession ++ rest) ∧
      (∃ rest, (uploadAttempt I p n sz st).2.2 = sessEvs st.hasSession ++ rest) ∧
      (∃ rest, (rootAttempt env stN).2.2 = sessEvs stN.hasSession ++ rest)) ∧
    (∀ (σ : Type) (I : RemoteIface σ) (root : Nat) (st : RunSt σ) (e : Err)
      (parts : List String) (files : List LFile) (rest : List WalkEntry),
      (processChain I root parts st).1 = .error e →
      (upload_directory I ((parts, files) :: rest) root st).1 = .error e) := by
  refine ⟨fun σ α att d st st1 st2 e1 r v1 v2 h1 h2 => retry3_retry1 h1 h2,
    fun σ α att d st st1 st2 st3 e1 e2 r v1 v2 v3 h1 h2 h3 => retry3_retry2 h1 h2 h3,
    fun σ α att d st st1 st2 st3 e1 e2 e3 v1 v2 v3 h1 h2 h3 => retry3_retry3 h1 h2 h3,
    fun σ I p n st => ⟨rfl, rfl⟩, fun σ I p n sz st => rfl, fun env st => rfl, ⟨rfl, rfl⟩,
    fun σ I p n sz st env stN =>
      ⟨ensureAttempt_sess I p n st, feAttempt_sess I p n st, uploadAttempt_sess I p n sz st,
        rootAttempt_sess env stN⟩, ?_⟩
  intro σ I root st e parts files rest hc
  rcases hcc : processChain I root parts st with ⟨cres, st1, evs⟩
  rw [hcc] at hc
  simp only at hc
  subst hc
  unfold upload_directory processEntries
  simp only [hcc]

/-- Claim C6, witness: a folder-ensure whose three attempts all fail
transiently sleeps 900 then 1800 seconds, creates a session per attempt
(closing the previous one), and re-raises the last failure. -/
theorem retry_policy_witness :
    ensure_folder scriptIface 1 "a"
        ⟨⟨[.transient 1, .transient 2, .transient 3], [], [], [], []⟩, false⟩ =
      (.error (.transientE 3), ⟨⟨[], [], [], [], []⟩, true⟩,
        [.sessionCreate, .getFolders 1, .sleep (900 * 1), .sessionClose, .sessionCreate,
          .getFolders 1, .sleep (900 * 2), .sessionClose, .sessionCreate, .getFolders 1]) := by
  have h := retry_policy.2.2.1 Script Nat (ensureAttempt scriptIface 1 "a") 900
    ⟨⟨[.transient 1, .transient 2, .transient 3], [], [], [], []⟩, false⟩
    ⟨⟨[.transient 2, .transient 3], [], [], [], []⟩, true⟩
    ⟨⟨[.transient 3], [], [], [], []⟩, true⟩ ⟨⟨[], [], [], [], []⟩, true⟩
    (.transientE 1) (.transientE 2) (.transientE 3)
    [.sessionCreate, .getFolders 1] [.sessionClose, .sessionCreate, .getFolders 1]
    [.sessionClose, .sessionCreate, .getFolders 1] rfl rfl rfl
  rw [(retry_policy.2.2.2.1 Script scriptIface 1 "a"
    ⟨⟨[.transient 1, .transient 2, .transient 3], [], [], [], []⟩, false⟩).1, h]
  simp

theorem uploadAttempt_retry_noCounters {σ : Type} {I : RemoteIface σ} {p : Nat} {n : String}
    {sz : Nat} {st s : RunSt σ} {e : Err} {v : List Ev}
    (h : uploadAttempt I p n sz st = (.retry e, s, v)) : noCounters v := by
  rcases hfe : file_exists I p n ⟨st.rem, true⟩ with ⟨fr, st1, fevs⟩
  have hf : noCounters fevs := by
    have := file_exists_noCounters I p n ⟨st.rem, true⟩
    rw [hfe] at this
    exact this
  have hp : noCounters [Ev.postFile p n] := by
    intro x hx
    simp at hx
    subst hx
    rfl
  unfold uploadAttempt at h
  rw [hfe] at h
  cases fr with
  | ok b =>
    cases b with
    | true => simp at h
    | false =>
      dsimp only at h
      rcases hup : I.uploadFile st1.rem p n with ⟨o, r2⟩
      rw [hup] at h
      cases o with
      | ok u => simp at h
      | conflict => simp at h
      | transient c =>
        simp only [Prod.mk.injEq, AttRes.retry.injEq] at h
        rcases h with ⟨-, -, hv⟩
        rw [← hv]
        exact noCounters_append (noCounters_append (noCounters_sessEvs _) hf) hp
  | error e2 =>
    cases e2 with
    | exists409 => simp at h
    | transientE c =>
      simp only [Prod.mk.injEq, AttRes.retry.injEq] at h
      rcases h with ⟨-, -, hv⟩
      rw [← hv]
      exact noCounters_append (noCounters_sessEvs _) hf
    | requeryE =>
      simp only [Prod.mk.injEq, AttRes.retry.injEq] at h
      rcases h with ⟨-, -, hv⟩
      rw [← hv]
      exact noCounters_append (noCounters_sessEvs _) hf
    | folderVanished m =>
      simp only [Prod.mk.injEq, AttRes.retry.injEq] at h
      rcases h with ⟨-, -, hv⟩
      rw [← hv]
      exact noCounters_append (noCounters_sessEvs _) hf
    | osError =>
      simp only [Prod.mk.injEq, AttRes.retry.injEq] at h
      rcases h with ⟨-, -, hv⟩
      rw [← hv]
      exact noCounters_append (noCounters_sessEvs _) hf

/-- Claim C7: a file upload whose first two attempts fail transiently and
whose third attempt succeeds (the existence check reports absence and the
`POST` succeeds) returns successfully and moves `uploaded_files` by
exactly 1 and `uploaded_size_bytes` by exactly the file's size — once,
not once per attempt. -/
theorem upload_retry_counts_once {σ : Type} (I : RemoteIface σ) (p : Nat) (n : String) (sz : Nat)
    (st st1 st2 stf : RunSt σ) (e1 e2 : Err) (v1 v2 fevs : List Ev) (r3 : σ)
    (h1 : uploadAttempt I p n sz st = (.retry e1, st1, v1))
    (h2 : uploadAttempt I p n sz st1 = (.retry e2, st2, v2))
    (h3fe : file_exists I p n ⟨st2.rem, true⟩ = (.ok false, stf, fevs))
    (h3up : I.uploadFile stf.rem p n = (.ok (), r3)) :
    (upload_file I p n (some sz) st).1 = .ok () ∧
    ∀ s : Stats,
      (statsAfter s (upload_file I p n (some sz) st).2.2).uploaded_files =
        s.uploaded_files + 1 ∧
      (statsAfter s (upload_file I p n (some sz) st).2.2).uploaded_size_bytes =
        s.uploaded_size_bytes + sz := by
  have ha3 : uploadAttempt I p n sz st2 =
      (.done (.ok ()), ⟨r3, stf.hasSession⟩,
        sessEvs st2.hasSession ++ fevs ++
          [.postFile p n, .incUploadedFiles, .incUploadedBytes sz]) := by
    unfold uploadAttempt
    simp only [h3fe, h3up]
  have hq : upload_file I p n (some sz) st =
      (.ok (), ⟨r3, stf.hasSession⟩,
        .uploadCall p n ::
          (v1 ++ .sleep (900 * 1) ::
            (v2 ++ .sleep (900 * 2) ::
              (sessEvs st2.hasSession ++ fevs ++
                [.postFile p n, .incUploadedFiles, .incUploadedBytes sz])))) := by
    unfold upload_file
    simp only [retry3_retry2 h1 h2 ha3]
  rw [hq]
  have hv1 : noFileCounters v1 := (uploadAttempt_retry_noCounters h1).noFileCounters
  have hv2 : noFileCounters v2 := (uploadAttempt_retry_noCounters h2).noFileCounters
  have hf : noFileCounters fevs := by
    have := file_exists_noCounters I p n ⟨st2.rem, true⟩
    rw [h3fe] at this
    exact this.noFileCounters
  have hs : noFileCounters (sessEvs st2.hasSession) :=
    (noCounters_sessEvs st2.hasSession).noFileCounters
  refine ⟨rfl, fun s => ⟨?_, ?_⟩⟩
  · rw [statsAfter_uploaded_files]
    simp [List.countP_cons, List.countP_append, isUF, hv1.1, hv2.1, hf.1, hs.1]
  · rw [statsAfter_uploaded_bytes]
    simp [List.countP_cons, List.countP_append, ubAmt, hv1.2.2.1, hv2.2.2.1, hf.2.2.1, hs.2.2.1]

/-- Claim C7, witness: concrete two transient failures then success:
`uploaded_files` ends at exactly 1, `uploaded_size_bytes` at exactly 33. -/
theorem upload_retry_counts_once_witness :
    (upload_file scriptIface 2 "f" (some 33)
        ⟨⟨[], [], [], [.ok [], .ok [], .ok []], [.transient 7, .transient 8, .ok ()]⟩,
          false⟩).1 = .ok () ∧
    (statsAfter Stats.init
        (upload_file scriptIface 2 "f" (some 33)
          ⟨⟨[], [], [], [.ok [], .ok [], .ok []], [.transient 7, .transient 8, .ok ()]⟩,
            false⟩).2.2).uploaded_files = 0 + 1 ∧
    (statsAfter Stats.init
        (upload_file scriptIface 2 "f" (some 33)
          ⟨⟨[], [], [], [.ok [], .ok [], .ok []], [.transient 7, .transient 8, .ok ()]⟩,
            false⟩).2.2).uploaded_size_bytes = 0 + 33 := by
  have h := upload_retry_counts_once scriptIface 2 "f" 33
    ⟨⟨[], [], [], [.ok [], .ok [], .ok []], [.transient 7, .transient 8, .ok ()]⟩, false⟩
    ⟨⟨[], [], [], [.ok [], .ok []], [.transient 8, .ok ()]⟩, true⟩
    ⟨⟨[], [], [], [.ok []], [.ok ()]⟩, true⟩
    ⟨⟨[], [], [], [], [.ok ()]⟩, true⟩ (.transientE 7) (.transientE 8)
    [.sessionCreate, .sessionClose, .sessionCreate, .getFiles 2, .postFile 2 "f"]
    [.sessionClose, .sessionCreate, .sessionClose, .sessionCreate, .getFiles 2, .postFile 2 "f"]
    [.sessionClose, .sessionCreate, .getFiles 2] ⟨[], [], [], [], []⟩ rfl rfl rfl rfl
  exact ⟨h.1, (h.2 Stats.init).1, (h.2 Stats.init).2⟩

/-! ## Claims C4 and C5: statistics accounting

Per-operation facts about file counters, lifted to the whole walk. -/

/-- Abbreviations for the two per-file deltas of a trace. -/
def fDelta (evs : List Ev) : Nat := evs.countP isUF + evs.countP isSF

def bDelta (evs : List Ev) : Nat := (evs.map ubAmt).sum + (evs.map sbAmt).sum

theorem fDelta_append (a b : List Ev) : fDelta (a ++ b) = fDelta a + fDelta b := by
  simp [fDelta, List.countP_append]
  omega

theorem bDelta_append (a b : List Ev) : bDelta (a ++ b) = bDelta a + bDelta b := by
  simp [bDelta]
  omega

theorem noFileCounters_fDelta {evs : List Ev} (h : noFileCounters evs) : fDelta evs = 0 := by
  simp [fDelta, h.1, h.2.1]

theorem noFileCounters_bDelta {evs : List Ev} (h : noFileCounters evs) : bDelta evs = 0 := by
  simp [bDelta, h.2.2.1, h.2.2.2.1]

theorem branch409_noFileCounters {σ : Type} {I : RemoteIface σ} {p : Nat} {n : String}
    {st s2 : RunSt σ} {res : Except Err Nat} {evs : List Ev}
    (h : branch409 I p n st = (res, s2, evs)) : noFileCounters evs := by
  unfold branch409 at h
  split at h
  · split at h
    · simp only [Prod.mk.injEq] at h
      rw [← h.2.2]
      simp [noFileCounters, isUF, isSF, isST, ubAmt, sbAmt]
    · split at h
      · split at h <;> simp only [Prod.mk.injEq] at h <;> rw [← h.2.2] <;>
          simp [noFileCounters, isUF, isSF, isST, ubAmt, sbAmt]
      · simp only [Prod.mk.injEq] at h
        rw [← h.2.2]
        simp [noFileCounters, isUF, isSF, isST, ubAmt, sbAmt]
  · simp only [Prod.mk.injEq] at h
    rw [← h.2.2]
    simp [noFileCounters, isUF, isSF, isST, ubAmt, sbAmt]

theorem branch409_noFileCounters2 {σ : Type} (I : RemoteIface σ) (p : Nat) (n : String)
    (st : RunSt σ) : noFileCounters (branch409 I p n st).2.2 := by
  rcases h : branch409 I p n st with ⟨res, s2, evs⟩
  exact branch409_noFileCounters h

theorem ensureAttempt_noFileCounters {σ : Type} {I : RemoteIface σ} {p : Nat} {n : String}
    {st s : RunSt σ} {a : AttRes Nat} {v : List Ev}
    (h : ensureAttempt I p n st = (a, s, v)) : noFileCounters v := by
  have hse : ∀ b : Bool, noFileCounters (sessEvs b) := fun b =>
    (noCounters_sessEvs b).noFileCounters
  unfold ensureAttempt at h
  split at h
  · split at h
    · simp only [Prod.mk.injEq] at h
      rw [← h.2.2]
      refine noFileCounters_append (hse _) ?_
      simp [noFileCounters, isUF, isSF, isST, ubAmt, sbAmt]
    · split at h <;> simp only [Prod.mk.injEq] at h <;> rw [← h.2.2]
      · refine noFileCounters_append (hse _) ?_
        simp [noFileCounters, isUF, isSF, isST, ubAmt, sbAmt]
      · refine noFileCounters_append (noFileCounters_append (hse _) ?_)
          (branch409_noFileCounters2 I p n _)
        simp [noFileCounters, isUF, isSF, isST, ubAmt, sbAmt]
      · refine noFileCounters_append (hse _) ?_
        simp [noFileCounters, isUF, isSF, isST, ubAmt, sbAmt]
  · simp only [Prod.mk.injEq] at h
    rw [← h.2.2]
    refine noFileCounters_append (noFileCounters_append (hse _) ?_)
      (branch409_noFileCounters2 I p n _)
    simp [noFileCounters, isUF, isSF, isST, ubAmt, sbAmt]
  · simp only [Prod.mk.injEq] at h
    rw [← h.2.2]
    refine noFileCounters_append (hse _) ?_
    simp [noFileCounters, isUF, isSF, isST, ubAmt, sbAmt]

theorem retry3_noFileCounters {σ α : Type} {att : RunSt σ → AttRes α × RunSt σ × List Ev}
    {d : Nat} (hatt : ∀ s, noFileCounters (att s).2.2) (st : RunSt σ) :
    noFileCounters (retry3 att d st).2.2 := by
  have hs : ∀ k, noFileCounters [Ev.sleep k] := by
    intro k
    simp [noFileCounters, isUF, isSF, isST, ubAmt, sbAmt]
  rcases h1 : att st with ⟨a1, st1, v1⟩
  have hv1 : noFileCounters v1 := by have := hatt st; rw [h1] at this; exact this
  cases a1 with
  | done r => rw [retry3_done h1]; exact hv1
  | retry e1 =>
    rcases h2 : att st1 with ⟨a2, st2, v2⟩
    have hv2 : noFileCounters v2 := by have := hatt st1; rw [h2] at this; exact this
    cases a2 with
    | done r =>
      rw [retry3_retry1 h1 h2]
      exact noFileCounters_append hv1 (noFileCounters_cons rfl rfl rfl rfl rfl hv2)
    | retry e2 =>
      rcases h3 : att st2 with ⟨a3, st3, v3⟩
      have hv3 : noFileCounters v3 := by have := hatt st2; rw [h3] at this; exact this
      cases a3 with
      | done r =>
        rw [retry3_retry2 h1 h2 h3]
        exact noFileCounters_append hv1 (noFileCounters_cons rfl rfl rfl rfl rfl
          (noFileCounters_append hv2 (noFileCounters_cons rfl rfl rfl rfl rfl hv3)))
      | retry e3 =>
        rw [retry3_retry3 h1 h2 h3]
        exact noFileCounters_append hv1 (noFileCounters_cons rfl rfl rfl rfl rfl
          (noFileCounters_append hv2 (noFileCounters_cons rfl rfl rfl rfl rfl hv3)))

/-- `ensure_folder` never touches the per-file counters nor the totals. -/
theorem ensure_folder_noFileCounters {σ : Type} (I : RemoteIface σ) (p : Nat) (n : String)
    (st : RunSt σ) : noFileCounters (ensure_folder I p n st).2.2 :=
  retry3_noFileCounters (fun s => by
    rcases h : ensureAttempt I p n s with ⟨a, s2, v⟩
    exact ensureAttempt_noFileCounters h) st

/-- A finished `upload_file` attempt accounts the file exactly once:
its trace moves `uploaded_files + skipped_files` by exactly 1 and
`uploaded_size_bytes + skipped_size_bytes` by exactly the file size. -/
theorem uploadAttempt_done_counts {σ : Type} {I : RemoteIface σ} {p : Nat} {n : String}
    {sz : Nat} {st s : RunSt σ} {r : Except Err Unit} {v : List Ev}
    (h : uploadAttempt I p n sz st = (.done r, s, v)) :
    fDelta v = 1 ∧ bDelta v = sz ∧ v.countP isST = 0 := by
  have hse : ∀ b : Bool, noFileCounters (sessEvs b) := fun b =>
    (noCounters_sessEvs b).noFileCounters
  unfold uploadAttempt at h
  split at h
  · rename_i st1 fevs heq
    have hf : noFileCounters fevs := by
      have := file_exists_noCounters I p n ⟨st.rem, true⟩
      rw [heq] at this
      exact this.noFileCounters
    simp only [Prod.mk.injEq, AttRes.done.injEq] at h
    obtain ⟨-, -, hv⟩ := h
    have hv2 : v = (sessEvs st.hasSession ++ fevs) ++ [Ev.incSkippedFiles, Ev.incSkippedBytes sz] := by
      rw [← hv]
    have hnf : noFileCounters (sessEvs st.hasSession ++ fevs) := noFileCounters_append (hse _) hf
    rw [hv2]
    refine ⟨?_, ?_, ?_⟩
    · rw [fDelta_append, noFileCounters_fDelta hnf]
      simp [fDelta, List.countP_cons, isUF, isSF]
    · rw [bDelta_append, noFileCounters_bDelta hnf]
      simp [bDelta, ubAmt, sbAmt]
    · rw [List.countP_append, hnf.2.2.2.2]
      simp [List.countP_cons, isST]
  · rename_i st1 fevs heq
    have hf : noFileCounters fevs := by
      have := file_exists_noCounters I p n ⟨st.rem, true⟩
      rw [heq] at this
      exact this.noFileCounters
    have hnf : noFileCounters (sessEvs st.hasSession ++ fevs) := noFileCounters_append (hse _) hf
    split at h
    · simp only [Prod.mk.injEq, AttRes.done.injEq] at h
      obtain ⟨-, -, hv⟩ := h
      have hv2 : v = (sessEvs st.hasSession ++ fevs) ++
          [Ev.postFile p n, Ev.incUploadedFiles, Ev.incUploadedBytes sz] := by
        rw [← hv]
      rw [hv2]
      refine ⟨?_, ?_, ?_⟩
      · rw [fDelta_append, noFileCounters_fDelta hnf]
        simp [fDelta, List.countP_cons, isUF, isSF]
      · rw [bDelta_append, noFileCounters_bDelta hnf]
        simp [bDelta, ubAmt, sbAmt]
      · rw [List.countP_append, hnf.2.2.2.2]
        simp [List.countP_cons, isST]
    · simp only [Prod.mk.injEq, AttRes.done.injEq] at h
      obtain ⟨-, -, hv⟩ := h
      have hv2 : v = (sessEvs st.hasSession ++ fevs) ++
          [Ev.postFile p n, Ev.incSkippedFiles, Ev.incSkippedBytes sz] := by
        rw [← hv]
      rw [hv2]
      refine ⟨?_, ?_, ?_⟩
      · rw [fDelta_append, noFileCounters_fDelta hnf]
        simp [fDelta, List.countP_cons, isUF, isSF]
      · rw [bDelta_append, noFileCounters_bDelta hnf]
        simp [bDelta, ubAmt, sbAmt]
      · rw [List.countP_append, hnf.2.2.2.2]
        simp [List.countP_cons, isST]
    · simp at h
  · rename_i st1 fevs heq
    have hf : noFileCounters fevs := by
      have := file_exists_noCounters I p n ⟨st.rem, true⟩
      rw [heq] at this
      exact this.noFileCounters
    simp only [Prod.mk.injEq, AttRes.done.injEq] at h
    obtain ⟨-, -, hv⟩ := h
    have hv2 : v = (sessEvs st.hasSession ++ fevs) ++ [Ev.incSkippedFiles, Ev.incSkippedBytes sz] := by
      rw [← hv]
    have hnf : noFileCounters (sessEvs st.hasSession ++ fevs) := noFileCounters_append (hse _) hf
    rw [hv2]
    refine ⟨?_, ?_, ?_⟩
    · rw [fDelta_append, noFileCounters_fDelta hnf]
      simp [fDelta, List.countP_cons, isUF, isSF]
    · rw [bDelta_append, noFileCounters_bDelta hnf]
      simp [bDelta, ubAmt, sbAmt]
    · rw [List.countP_append, hnf.2.2.2.2]
      simp [List.countP_cons, isST]
  · simp at h

theorem fDelta_uploadCall_cons (p : Nat) (n : String) (evs : List Ev) :
    fDelta (.uploadCall p n :: evs) = fDelta evs := by
  simp [fDelta, List.countP_cons, isUF, isSF]

theorem bDelta_uploadCall_cons (p : Nat) (n : String) (evs : List Ev) :
    bDelta (.uploadCall p n :: evs) = bDelta evs := by
  simp [bDelta, ubAmt, sbAmt]

theorem sleepNoFileCounters (k : Nat) : noFileCounters [Ev.sleep k] := by
  simp [noFileCounters, isUF, isSF, isST, ubAmt, sbAmt]

/-- A successful `upload_file` call accounts the file exactly once, with
exactly its size, and never touches the totals. -/
theorem upload_file_counts_ok {σ : Type} {I : RemoteIface σ} {p : Nat} {n : String}
    {fsize : Option Nat} {st : RunSt σ} (h : (upload_file I p n fsize st).1 = .ok ()) :
    ∃ sz, fsize = some sz ∧
      fDelta (upload_file I p n fsize st).2.2 = 1 ∧
      bDelta (upload_file I p n fsize st).2.2 = sz ∧
      (upload_file I p n fsize st).2.2.countP isST = 0 := by
  cases fsize with
  | none => simp [upload_file] at h
  | some sz =>
    refine ⟨sz, rfl, ?_⟩
    have hmain : fDelta (retry3 (uploadAttempt I p n sz) 900 st).2.2 = 1 ∧
        bDelta (retry3 (uploadAttempt I p n sz) 900 st).2.2 = sz ∧
        (retry3 (uploadAttempt I p n sz) 900 st).2.2.countP isST = 0 := by
      have hres : (retry3 (uploadAttempt I p n sz) 900 st).1 = .ok () := h
      rcases h1 : uploadAttempt I p n sz st with ⟨a1, st1, v1⟩
      cases a1 with
      | done r =>
        rw [retry3_done h1]
        exact uploadAttempt_done_counts h1
      | retry e1 =>
        have hv1 : noFileCounters v1 := (uploadAttempt_retry_noCounters h1).noFileCounters
        rcases h2 : uploadAttempt I p n sz st1 with ⟨a2, st2, v2⟩
        cases a2 with
        | done r =>
          rw [retry3_retry1 h1 h2]
          rcases uploadAttempt_done_counts h2 with ⟨c1, c2, c3⟩
          have hcs : noFileCounters (v1 ++ [Ev.sleep (900 * 1)]) :=
            noFileCounters_append hv1 (sleepNoFileCounters _)
          rw [show v1 ++ Ev.sleep (900 * 1) :: v2 = (v1 ++ [Ev.sleep (900 * 1)]) ++ v2 by simp]
          rw [fDelta_append, bDelta_append, List.countP_append,
            noFileCounters_fDelta hcs, noFileCounters_bDelta hcs, hcs.2.2.2.2]
          simp [c1, c2, c3]
        | retry e2 =>
          have hv2 : noFileCounters v2 := (uploadAttempt_retry_noCounters h2).noFileCounters
          rcases h3 : uploadAttempt I p n sz st2 with ⟨a3, st3, v3⟩
          cases a3 with
          | done r =>
            rw [retry3_retry2 h1 h2 h3]
            rcases uploadAttempt_done_counts h3 with ⟨c1, c2, c3⟩
            have hcs : noFileCounters
                ((v1 ++ [Ev.sleep (900 * 1)]) ++ (v2 ++ [Ev.sleep (900 * 2)])) :=
              noFileCounters_append (noFileCounters_append hv1 (sleepNoFileCounters _))
                (noFileCounters_append hv2 (sleepNoFileCounters _))
            rw [show v1 ++ Ev.sleep (900 * 1) :: (v2 ++ Ev.sleep (900 * 2) :: v3) =
              ((v1 ++ [Ev.sleep (900 * 1)]) ++ (v2 ++ [Ev.sleep (900 * 2)])) ++ v3 by simp]
            rw [fDelta_append, bDelta_append, List.countP_append,
              noFileCounters_fDelta hcs, noFileCounters_bDelta hcs, hcs.2.2.2.2]
            simp [c1, c2, c3]
          | retry e3 =>
            rw [retry3_retry3 h1 h2 h3] at hres
            simp at hres
    have hevs : (upload_file I p n (some sz) st).2.2 =
        .uploadCall p n :: (retry3 (uploadAttempt I p n sz) 900 st).2.2 := rfl
    rw [hevs, fDelta_uploadCall_cons, bDelta_uploadCall_cons]
    refine ⟨hmain.1, hmain.2.1, ?_⟩
    simp [List.countP_cons, isST, hmain.2.2]

/-- Any `upload_file` call accounts the file at most once, with at most
its pre-scan contribution, and never touches the totals. -/
theorem upload_file_bound {σ : Type} (I : RemoteIface σ) (p : Nat) (n : String)
    (fsize : Option Nat) (st : RunSt σ) :
    fDelta (upload_file I p n fsize st).2.2 ≤ 1 ∧
    bDelta (upload_file I p n fsize st).2.2 ≤ fsize.getD 0 ∧
    (upload_file I p n fsize st).2.2.countP isST = 0 := by
  cases fsize with
  | none =>
    refine ⟨?_, ?_, ?_⟩ <;>
      simp [upload_file, fDelta, bDelta, List.countP_cons, isUF, isSF, isST, ubAmt, sbAmt]
  | some sz =>
    have hmain : fDelta (retry3 (uploadAttempt I p n sz) 900 st).2.2 ≤ 1 ∧
        bDelta (retry3 (uploadAttempt I p n sz) 900 st).2.2 ≤ sz ∧
        (retry3 (uploadAttempt I p n sz) 900 st).2.2.countP isST = 0 := by
      rcases h1 : uploadAttempt I p n sz st with ⟨a1, st1, v1⟩
      cases a1 with
      | done r =>
        rw [retry3_done h1]
        dsimp only
        rcases uploadAttempt_done_counts h1 with ⟨c1, c2, c3⟩
        refine ⟨by omega, by omega, c3⟩
      | retry e1 =>
        have hv1 : noFileCounters v1 := (uploadAttempt_retry_noCounters h1).noFileCounters
        rcases h2 : uploadAttempt I p n sz st1 with ⟨a2, st2, v2⟩
        cases a2 with
        | done r =>
          rw [retry3_retry1 h1 h2]
          rcases uploadAttempt_done_counts h2 with ⟨c1, c2, c3⟩
          have hcs : noFileCounters (v1 ++ [Ev.sleep (900 * 1)]) :=
            noFileCounters_append hv1 (sleepNoFileCounters _)
          rw [show v1 ++ Ev.sleep (900 * 1) :: v2 = (v1 ++ [Ev.sleep (900 * 1)]) ++ v2 by simp]
          rw [fDelta_append, bDelta_append, List.countP_append,
            noFileCounters_fDelta hcs, noFileCounters_bDelta hcs, hcs.2.2.2.2]
          omega
        | retry e2 =>
          have hv2 : noFileCounters v2 := (uploadAttempt_retry_noCounters h2).noFileCounters
          rcases h3 : uploadAttempt I p n sz st2 with ⟨a3, st3, v3⟩
          have hcs : noFileCounters
              ((v1 ++ [Ev.sleep (900 * 1)]) ++ (v2 ++ [Ev.sleep (900 * 2)])) :=
            noFileCounters_append (noFileCounters_append hv1 (sleepNoFileCounters _))
              (noFileCounters_append hv2 (sleepNoFileCounters _))
          cases a3 with
          | done r =>
            rw [retry3_retry2 h1 h2 h3]
            rcases uploadAttempt_done_counts h3 with ⟨c1, c2, c3⟩
            rw [show v1 ++ Ev.sleep (900 * 1) :: (v2 ++ Ev.sleep (900 * 2) :: v3) =
              ((v1 ++ [Ev.sleep (900 * 1)]) ++ (v2 ++ [Ev.sleep (900 * 2)])) ++ v3 by simp]
            rw [fDelta_append, bDelta_append, List.countP_append,
              noFileCounters_fDelta hcs, noFileCounters_bDelta hcs, hcs.2.2.2.2]
            omega
          | retry e3 =>
            have hv3 : noFileCounters v3 := (uploadAttempt_retry_noCounters h3).noFileCounters
            rw [retry3_retry3 h1 h2 h3]
            rw [show v1 ++ Ev.sleep (900 * 1) :: (v2 ++ Ev.sleep (900 * 2) :: v3) =
              ((v1 ++ [Ev.sleep (900 * 1)]) ++ (v2 ++ [Ev.sleep (900 * 2)])) ++ v3 by simp]
            rw [fDelta_append, bDelta_append, List.countP_append,
              noFileCounters_fDelta hcs, noFileCounters_bDelta hcs, hcs.2.2.2.2]
            simp [noFileCounters_fDelta hv3, noFileCounters_bDelta hv3, hv3.2.2.2.2]
    have hevs : (upload_file I p n (some sz) st).2.2 =
        .uploadCall p n :: (retry3 (uploadAttempt I p n sz) 900 st).2.2 := rfl
    rw [hevs, fDelta_uploadCall_cons, bDelta_uploadCall_cons]
    refine ⟨hmain.1, hmain.2.1, ?_⟩
    simp [List.countP_cons, isST, hmain.2.2]

/-- The pre-scan byte contribution of a list of files (unreadable sizes
count zero, as in `calculate_total_files_and_size`). -/
def sizesSum (fs : List LFile) : Nat := (fs.map (fun f => f.size.getD 0)).sum

theorem processChain_noFileCounters {σ : Type} (I : RemoteIface σ) :
    ∀ (parts : List String) (parent : Nat) (st : RunSt σ),
      noFileCounters (processChain I parent parts st).2.2
  | [], parent, st => by
    simp only [processChain]
    exact noFileCounters_nil
  | p :: ps, parent, st => by
    rcases h : ensure_folder I parent p st with ⟨res, st1, evs⟩
    have he : noFileCounters evs := by
      have := ensure_folder_noFileCounters I parent p st
      rw [h] at this
      exact this
    cases res with
    | error e =>
      simp only [processChain, h]
      exact he
    | ok r =>
      simp only [processChain, h]
      exact noFileCounters_append he (processChain_noFileCounters I ps r st1)

theorem processFiles_counts_ok {σ : Type} (I : RemoteIface σ) (cur : Nat) :
    ∀ (fs : List LFile) (st : RunSt σ), (processFiles I cur fs st).1 = .ok () →
      fDelta (processFiles I cur fs st).2.2 = fs.length ∧
      bDelta (processFiles I cur fs st).2.2 = sizesSum fs ∧
      (processFiles I cur fs st).2.2.countP isST = 0
  | [], st, _ => by
    simp only [processFiles]
    simp [fDelta, bDelta, sizesSum]
  | f :: fs, st, h => by
    rcases hu : upload_file I cur f.name f.size st with ⟨r, st1, evs1⟩
    cases r with
    | error e =>
      rw [processFiles] at h
      rw [hu] at h
      simp at h
    | ok u =>
      cases u
      rw [processFiles] at h ⊢
      rw [hu] at h ⊢
      simp only at h ⊢
      rcases upload_file_counts_ok (by rw [hu] :
        (upload_file I cur f.name f.size st).1 = .ok ()) with ⟨sz, hsz, c1, c2, c3⟩
      rw [hu] at c1 c2 c3
      simp only at c1 c2 c3
      rcases processFiles_counts_ok I cur fs st1 h with ⟨i1, i2, i3⟩
      rw [fDelta_append, bDelta_append, List.countP_append, c1, c2, c3, i1, i2, i3]
      simp [sizesSum, hsz]
      omega

theorem processEntries_counts_ok {σ : Type} (I : RemoteIface σ) (root : Nat) :
    ∀ (es : List WalkEntry) (st : RunSt σ), (processEntries I root es st).1 = .ok () →
      fDelta (processEntries I root es st).2.2 = (es.map (fun e => e.2.length)).sum ∧
      bDelta (processEntries I root es st).2.2 = (es.map (fun e => sizesSum e.2)).sum ∧
      (processEntries I root es st).2.2.countP isST = 0
  | [], st, _ => by
    simp only [processEntries]
    simp [fDelta, bDelta]
  | e :: es, st, h => by
    rcases hc : processChain I root e.1 st with ⟨cres, st1, evs1⟩
    have hcn : noFileCounters evs1 := by
      have := processChain_noFileCounters I e.1 root st
      rw [hc] at this
      exact this
    cases cres with
    | error err =>
      rw [processEntries] at h
      rw [hc] at h
      simp at h
    | ok cur =>
      rcases hf : processFiles I cur e.2 st1 with ⟨fres, st2, evs2⟩
      cases fres with
      | error err =>
        rw [processEntries] at h
        rw [hc] at h
        dsimp only at h
        rw [hf] at h
        simp at h
      | ok u =>
        cases u
        rw [processEntries] at h ⊢
        rw [hc] at h ⊢
        dsimp only at h ⊢
        rw [hf] at h ⊢
        simp only at h ⊢
        rcases processFiles_counts_ok I cur e.2 st1 (by rw [hf]) with ⟨f1, f2, f3⟩
        rw [hf] at f1 f2 f3
        simp only at f1 f2 f3
        rcases processEntries_counts_ok I root es st2 h with ⟨i1, i2, i3⟩
        rw [fDelta_append, bDelta_append, List.countP_append, fDelta_append, bDelta_append,
          List.countP_append, noFileCounters_fDelta hcn, noFileCounters_bDelta hcn,
          hcn.2.2.2.2, f1, f2, f3, i1, i2, i3]
        simp

/-- Claim C4: after a sync run that completes without a fatal error,
`uploaded_files + skipped_files` equals the pre-scan `total_files` and
`uploaded_size_bytes + skipped_size_bytes` equals the pre-scan
`total_size_bytes` — each file is accounted by exactly one of the two
counters. -/
theorem sync_completeness {σ : Type} (I : RemoteIface σ) (walk : List WalkEntry) (root : Nat)
    (st : RunSt σ) (h : (upload_directory I walk root st).1 = .ok ()) :
    (statsAfter Stats.init (upload_directory I walk root st).2.2).uploaded_files +
        (statsAfter Stats.init (upload_directory I walk root st).2.2).skipped_files =
      (statsAfter Stats.init (upload_directory I walk root st).2.2).total_files ∧
    (statsAfter Stats.init (upload_directory I walk root st).2.2).uploaded_size_bytes +
        (statsAfter Stats.init (upload_directory I walk root st).2.2).skipped_size_bytes =
      (statsAfter Stats.init (upload_directory I walk root st).2.2).total_size_bytes ∧
    (statsAfter Stats.init (upload_directory I walk root st).2.2).total_files =
      (calculate_total_files_and_size walk).1 ∧
    (statsAfter Stats.init (upload_directory I walk root st).2.2).total_size_bytes =
      (calculate_total_files_and_size walk).2 := by
  have hres : (processEntries I root walk st).1 = .ok () := h
  have hevs : (upload_directory I walk root st).2.2 =
      .setTotals (walk.map (fun e => e.2.length)).sum
        (walk.map (fun e => sizesSum e.2)).sum :: (processEntries I root walk st).2.2 := rfl
  rcases processEntries_counts_ok I root walk st hres with ⟨c1, c2, c3⟩
  have hsa : statsAfter Stats.init (upload_directory I walk root st).2.2 =
      statsAfter (applyEv Stats.init (.setTotals (walk.map (fun e => e.2.length)).sum
        (walk.map (fun e => sizesSum e.2)).sum)) (processEntries I root walk st).2.2 := by
    rw [hevs, statsAfter_cons]
  have htf : (statsAfter Stats.init (upload_directory I walk root st).2.2).total_files =
      (walk.map (fun e => e.2.length)).sum := by
    rw [hsa, statsAfter_total_files _ _ c3]
    rfl
  have htb : (statsAfter Stats.init (upload_directory I walk root st).2.2).total_size_bytes =
      (walk.map (fun e => sizesSum e.2)).sum := by
    rw [hsa, statsAfter_total_bytes _ _ c3]
    rfl
  refine ⟨?_, ?_, htf, htb⟩
  · rw [hsa, statsAfter_uploaded_files, statsAfter_skipped_files, ← hsa, htf]
    have : (applyEv Stats.init (Ev.setTotals (walk.map (fun e => e.2.length)).sum
        (walk.map (fun e => sizesSum e.2)).sum)).uploaded_files = 0 := rfl
    rw [this]
    have h2 : (applyEv Stats.init (Ev.setTotals (walk.map (fun e => e.2.length)).sum
        (walk.map (fun e => sizesSum e.2)).sum)).skipped_files = 0 := rfl
    rw [h2]
    have := c1
    rw [fDelta] at this
    omega
  · rw [hsa, statsAfter_uploaded_bytes, statsAfter_skipped_bytes, ← hsa, htb]
    have : (applyEv Stats.init (Ev.setTotals (walk.map (fun e => e.2.length)).sum
        (walk.map (fun e => sizesSum e.2)).sum)).uploaded_size_bytes = 0 := rfl
    rw [this]
    have h2 : (applyEv Stats.init (Ev.setTotals (walk.map (fun e => e.2.length)).sum
        (walk.map (fun e => sizesSum e.2)).sum)).skipped_size_bytes = 0 := rfl
    rw [h2]
    have := c2
    rw [bDelta] at this
    omega

/-- Claim C4, witness: the two-file example tree uploads both files into
an empty remote and the counters add up exactly. -/
theorem sync_completeness_witness :
    (statsAfter Stats.init (upload_directory scriptIface
        [([], [⟨"doc1.txt", some 100⟩]), (["sub"], [⟨"doc2.txt", some 200⟩])] 1
        ⟨⟨[], [], [], [], []⟩, false⟩).2.2).uploaded_files +
      (statsAfter Stats.init (upload_directory scriptIface
        [([], [⟨"doc1.txt", some 100⟩]), (["sub"], [⟨"doc2.txt", some 200⟩])] 1
        ⟨⟨[], [], [], [], []⟩, false⟩).2.2).skipped_files =
      (statsAfter Stats.init (upload_directory scriptIface
        [([], [⟨"doc1.txt", some 100⟩]), (["sub"], [⟨"doc2.txt", some 200⟩])] 1
        ⟨⟨[], [], [], [], []⟩, false⟩).2.2).total_files ∧
    (statsAfter Stats.init (upload_directory scriptIface
        [([], [⟨"doc1.txt", some 100⟩]), (["sub"], [⟨"doc2.txt", some 200⟩])] 1
        ⟨⟨[], [], [], [], []⟩, false⟩).2.2).uploaded_size_bytes +
      (statsAfter Stats.init (upload_directory scriptIface
        [([], [⟨"doc1.txt", some 100⟩]), (["sub"], [⟨"doc2.txt", some 200⟩])] 1
        ⟨⟨[], [], [], [], []⟩, false⟩).2.2).skipped_size_bytes =
      (statsAfter Stats.init (upload_directory scriptIface
        [([], [⟨"doc1.txt", some 100⟩]), (["sub"], [⟨"doc2.txt", some 200⟩])] 1
        ⟨⟨[], [], [], [], []⟩, false⟩).2.2).total_size_bytes :=
  have h := sync_completeness scriptIface
    [([], [⟨"doc1.txt", some 100⟩]), (["sub"], [⟨"doc2.txt", some 200⟩])] 1
    ⟨⟨[], [], [], [], []⟩, false⟩ (by rfl)
  ⟨h.1, h.2.1⟩

/-! ## Claim C5: the counter invariant at every point of a run -/

theorem prefix_append_cases {π a b : List Ev} (h : π <+: a ++ b) :
    π <+: a ∨ ∃ c, π = a ++ c ∧ c <+: b := by
  induction a generalizing π with
  | nil => exact Or.inr ⟨π, by simpa using h⟩
  | cons x a ih =>
    cases π with
    | nil => exact Or.inl List.nil_prefix
    | cons y π =>
      rw [List.cons_append, List.cons_prefix_iff] at h
      rcases h with ⟨rfl, h2⟩
      rcases ih h2 with h3 | ⟨c, rfl, hc⟩
      · exact Or.inl (List.cons_prefix_iff.mpr ⟨rfl, h3⟩)
      · exact Or.inr ⟨c, rfl, hc⟩

theorem prefix_cons_cases {π : List Ev} {x : Ev} {l : List Ev} (h : π <+: x :: l) :
    π = [] ∨ ∃ t, π = x :: t ∧ t <+: l := by
  cases π with
  | nil => exact Or.inl rfl
  | cons y t =>
    rw [List.cons_prefix_iff] at h
    exact Or.inr ⟨t, by rw [h.1], h.2⟩

theorem prefix_fDelta_le {π l : List Ev} (h : π <+: l) : fDelta π ≤ fDelta l := by
  rcases h with ⟨t, rfl⟩
  rw [fDelta_append]
  omega

theorem prefix_bDelta_le {π l : List Ev} (h : π <+: l) : bDelta π ≤ bDelta l := by
  rcases h with ⟨t, rfl⟩
  rw [bDelta_append]
  omega

theorem prefix_countP_isST {π l : List Ev} (h : π <+: l) (hl : l.countP isST = 0) :
    π.countP isST = 0 := by
  rcases h with ⟨t, rfl⟩
  rw [List.countP_append] at hl
  omega

theorem processFiles_prefix_bound {σ : Type} (I : RemoteIface σ) (cur : Nat) :
    ∀ (fs : List LFile) (st : RunSt σ) (π : List Ev),
      π <+: (processFiles I cur fs st).2.2 →
      fDelta π ≤ fs.length ∧ bDelta π ≤ sizesSum fs ∧ π.countP isST = 0
  | [], st, π, h => by
    simp only [processFiles] at h
    rw [List.prefix_nil] at h
    subst h
    simp [fDelta, bDelta]
  | f :: fs, st, π, h => by
    rcases hu : upload_file I cur f.name f.size st with ⟨r, st1, evs1⟩
    have hub := upload_file_bound I cur f.name f.size st
    rw [hu] at hub
    simp only at hub
    cases r with
    | error e =>
      rw [processFiles] at h
      rw [hu] at h
      simp only at h
      have h1 := prefix_fDelta_le h
      have h2 := prefix_bDelta_le h
      have h3 := prefix_countP_isST h hub.2.2
      refine ⟨by simp; omega, ?_, h3⟩
      simp only [sizesSum, List.map_cons, List.sum_cons]
      have : bDelta π ≤ f.size.getD 0 := le_trans h2 hub.2.1
      omega
    | ok u =>
      cases u
      rw [processFiles] at h
      rw [hu] at h
      dsimp only at h
      rcases prefix_append_cases h with hpre | ⟨c, rfl, hc⟩
      · have h1 := prefix_fDelta_le hpre
        have h2 := prefix_bDelta_le hpre
        have h3 := prefix_countP_isST hpre hub.2.2
        refine ⟨by simp; omega, ?_, h3⟩
        simp only [sizesSum, List.map_cons, List.sum_cons]
        have : bDelta π ≤ f.size.getD 0 := le_trans h2 hub.2.1
        omega
      · rcases processFiles_prefix_bound I cur fs st1 c hc with ⟨i1, i2, i3⟩
        rw [fDelta_append, bDelta_append, List.countP_append]
        refine ⟨?_, ?_, ?_⟩
        · simp
          omega
        · simp only [sizesSum, List.map_cons, List.sum_cons]
          have := hub.2.1
          simp only [sizesSum] at i2
          omega
        · rw [hub.2.2, i3]
    termination_by fs => fs.length

theorem processEntries_prefix_bound {σ : Type} (I : RemoteIface σ) (root : Nat) :
    ∀ (es : List WalkEntry) (st : RunSt σ) (π : List Ev),
      π <+: (processEntries I root es st).2.2 →
      fDelta π ≤ (es.map (fun e => e.2.length)).sum ∧
      bDelta π ≤ (es.map (fun e => sizesSum e.2)).sum ∧ π.countP isST = 0
  | [], st, π, h => by
    simp only [processEntries] at h
    rw [List.prefix_nil] at h
    subst h
    simp [fDelta, bDelta]
  | e :: es, st, π, h => by
    rcases hc : processChain I root e.1 st with ⟨cres, st1, evs1⟩
    have hcn : noFileCounters evs1 := by
      have := processChain_noFileCounters I e.1 root st
      rw [hc] at this
      exact this
    have hcb : fDelta evs1 = 0 ∧ bDelta evs1 = 0 ∧ evs1.countP isST = 0 :=
      ⟨noFileCounters_fDelta hcn, noFileCounters_bDelta hcn, hcn.2.2.2.2⟩
    cases cres with
    | error err =>
      rw [processEntries] at h
      rw [hc] at h
      simp only at h
      have h1 := prefix_fDelta_le h
      have h2 := prefix_bDelta_le h
      have h3 := prefix_countP_isST h hcb.2.2
      exact ⟨by omega, by omega, h3⟩
    | ok cur =>
      rcases hf : processFiles I cur e.2 st1 with ⟨fres, st2, evs2⟩
      have hfb : ∀ ρ, ρ <+: evs2 → fDelta ρ ≤ e.2.length ∧ bDelta ρ ≤ sizesSum e.2 ∧
          ρ.countP isST = 0 := by
        intro ρ hρ
        have := processFiles_prefix_bound I cur e.2 st1 ρ (by rw [hf]; exact hρ)
        exact this
      cases fres with
      | error err =>
        rw [processEntries] at h
        rw [hc] at h
        dsimp only at h
        rw [hf] at h
        simp only at h
        rcases prefix_append_cases h with hpre | ⟨c, rfl, hcp⟩
        · have h1 := prefix_fDelta_le hpre
          have h2 := prefix_bDelta_le hpre
          have h3 := prefix_countP_isST hpre hcb.2.2
          exact ⟨by omega, by omega, h3⟩
        · rcases hfb c hcp with ⟨i1, i2, i3⟩
          rw [fDelta_append, bDelta_append, List.countP_append]
          refine ⟨?_, ?_, ?_⟩
          · simp
            omega
          · simp
            omega
          · rw [hcb.2.2, i3]
      | ok u =>
        cases u
        rw [processEntries] at h
        rw [hc] at h
        dsimp only at h
        rw [hf] at h
        dsimp only at h
        rcases prefix_append_cases h with hpre | ⟨c, rfl, hcp⟩
        · have h1 := prefix_fDelta_le hpre
          have h2 := prefix_bDelta_le hpre
          have h3 := prefix_countP_isST hpre hcb.2.2
          exact ⟨by omega, by omega, h3⟩
        · rcases prefix_append_cases hcp with hpre2 | ⟨c2, rfl, hcp2⟩
          · rcases hfb c hpre2 with ⟨i1, i2, i3⟩
            rw [fDelta_append, bDelta_append, List.countP_append]
            refine ⟨?_, ?_, ?_⟩
            · simp
              omega
            · simp
              omega
            · rw [hcb.2.2, i3]
          · rcases processEntries_prefix_bound I root es st2 c2 hcp2 with ⟨j1, j2, j3⟩
            rcases hfb evs2 List.prefix_rfl with ⟨i1, i2, i3⟩
            rw [fDelta_append, bDelta_append, List.countP_append, fDelta_append, bDelta_append,
              List.countP_append]
            refine ⟨?_, ?_, ?_⟩
            · simp
              omega
            · simp
              omega
            · rw [hcb.2.2, i3, j3]
    termination_by es => es.length

/-- Claim C5: at every point during and after a sync run — after every
individual counter update, whatever the remote behaviour, and including
runs where some file's size was unreadable at pre-scan time —
`uploaded_files + skipped_files ≤ total_files` and
`uploaded_size_bytes + skipped_size_bytes ≤ total_size_bytes`. -/
theorem stats_invariant {σ : Type} (I : RemoteIface σ) (walk : List WalkEntry) (root : Nat)
    (st : RunSt σ) (π : List Ev) (h : π <+: (upload_directory I walk root st).2.2) :
    (statsAfter Stats.init π).uploaded_files + (statsAfter Stats.init π).skipped_files ≤
      (statsAfter Stats.init π).total_files ∧
    (statsAfter Stats.init π).uploaded_size_bytes +
        (statsAfter Stats.init π).skipped_size_bytes ≤
      (statsAfter Stats.init π).total_size_bytes := by
  have hevs : (upload_directory I walk root st).2.2 =
      .setTotals (walk.map (fun e => e.2.length)).sum
        (walk.map (fun e => sizesSum e.2)).sum :: (processEntries I root walk st).2.2 := rfl
  rw [hevs] at h
  rcases prefix_cons_cases h with rfl | ⟨t, rfl, ht⟩
  · refine ⟨le_refl _, le_refl _⟩
  · rcases processEntries_prefix_bound I root walk st t ht with ⟨b1, b2, b3⟩
    rw [statsAfter_cons]
    constructor
    · rw [statsAfter_uploaded_files, statsAfter_skipped_files, statsAfter_total_files _ _ b3]
      have e1 : (applyEv Stats.init (.setTotals (walk.map (fun e => e.2.length)).sum
          (walk.map (fun e => sizesSum e.2)).sum)).uploaded_files = 0 := rfl
      have e2 : (applyEv Stats.init (.setTotals (walk.map (fun e => e.2.length)).sum
          (walk.map (fun e => sizesSum e.2)).sum)).skipped_files = 0 := rfl
      have e3 : (applyEv Stats.init (.setTotals (walk.map (fun e => e.2.length)).sum
          (walk.map (fun e => sizesSum e.2)).sum)).total_files =
          (walk.map (fun e => e.2.length)).sum := rfl
      rw [e1, e2, e3]
      rw [fDelta] at b1
      omega
    · rw [statsAfter_uploaded_bytes, statsAfter_skipped_bytes, statsAfter_total_bytes _ _ b3]
      have e1 : (applyEv Stats.init (.setTotals (walk.map (fun e => e.2.length)).sum
          (walk.map (fun e => sizesSum e.2)).sum)).uploaded_size_bytes = 0 := rfl
      have e2 : (applyEv Stats.init (.setTotals (walk.map (fun e => e.2.length)).sum
          (walk.map (fun e => sizesSum e.2)).sum)).skipped_size_bytes = 0 := rfl
      have e3 : (applyEv Stats.init (.setTotals (walk.map (fun e => e.2.length)).sum
          (walk.map (fun e => sizesSum e.2)).sum)).total_size_bytes =
          (walk.map (fun e => sizesSum e.2)).sum := rfl
      rw [e1, e2, e3]
      rw [bDelta] at b2
      omega

/-- Claim C5, witness: the invariant at the end of a run over a tree with
an unreadable file size, which aborts the run mid-walk. -/
theorem stats_invariant_witness :
    (statsAfter Stats.init (upload_directory scriptIface
        [([], [⟨"good", some 5⟩, ⟨"bad", none⟩, ⟨"after", some 7⟩])] 1
        ⟨⟨[], [], [], [], []⟩, false⟩).2.2).uploaded_files +
      (statsAfter Stats.init (upload_directory scriptIface
        [([], [⟨"good", some 5⟩, ⟨"bad", none⟩, ⟨"after", some 7⟩])] 1
        ⟨⟨[], [], [], [], []⟩, false⟩).2.2).skipped_files ≤
      (statsAfter Stats.init (upload_directory scriptIface
        [([], [⟨"good", some 5⟩, ⟨"bad", none⟩, ⟨"after", some 7⟩])] 1
        ⟨⟨[], [], [], [], []⟩, false⟩).2.2).total_files ∧
    (statsAfter Stats.init (upload_directory scriptIface
        [([], [⟨"good", some 5⟩, ⟨"bad", none⟩, ⟨"after", some 7⟩])] 1
        ⟨⟨[], [], [], [], []⟩, false⟩).2.2).uploaded_size_bytes +
      (statsAfter Stats.init (upload_directory scriptIface
        [([], [⟨"good", some 5⟩, ⟨"bad", none⟩, ⟨"after", some 7⟩])] 1
        ⟨⟨[], [], [], [], []⟩, false⟩).2.2).skipped_size_bytes ≤
      (statsAfter Stats.init (upload_directory scriptIface
        [([], [⟨"good", some 5⟩, ⟨"bad", none⟩, ⟨"after", some 7⟩])] 1
        ⟨⟨[], [], [], [], []⟩, false⟩).2.2).total_size_bytes :=
  stats_invariant scriptIface [([], [⟨"good", some 5⟩, ⟨"bad", none⟩, ⟨"after", some 7⟩])] 1
    ⟨⟨[], [], [], [], []⟩, false⟩ _ List.prefix_rfl

/-! ## Claim C8: folder-before-file ordering -/

/-- The completed folder-ensure chain for path segments `parts` starting
at `p`, with `refs` the successively returned refs: each segment's
resulting ref is the parent of the next segment. -/
def chainEvs : Nat → List String → List Nat → List Ev
  | _, [], _ => []
  | _, _ :: _, [] => []
  | p, s :: ss, r :: rs => .ensureRet p s r :: chainEvs r ss rs

theorem branch409_ret_mem {σ : Type} {I : RemoteIface σ} {p : Nat} {n : String} {st s : RunSt σ}
    {r : Nat} {evs : List Ev} (h : branch409 I p n st = (.ok r, s, evs)) :
    Ev.ensureRet p n r ∈ evs := by
  unfold branch409 at h
  rcases h1 : I.listFolders st.rem p with ⟨o, r1⟩
  rw [h1] at h
  cases o with
  | ok entries =>
    dsimp only at h
    cases entries with
    | cons e es =>
      simp only [Prod.mk.injEq, Except.ok.injEq] at h
      rw [← h.2.2, ← h.1]
      simp
    | nil =>
      dsimp only at h
      rcases h2 : I.listAll r1 p with ⟨o2, r2⟩
      rw [h2] at h
      cases o2 with
      | ok l =>
        dsimp only at h
        rcases h3 : l.find? (fun x => x.1 == n && x.2.2) with _ | x
        · rw [h3] at h
          simp at h
        · rw [h3] at h
          simp only [Prod.mk.injEq, Except.ok.injEq] at h
          rw [← h.2.2, ← h.1]
          simp
      | conflict => simp at h
      | transient c => simp at h
  | conflict => simp at h
  | transient c => simp at h

theorem ensureAttempt_ret_mem {σ : Type} {I : RemoteIface σ} {p : Nat} {n : String}
    {st s : RunSt σ} {r : Nat} {v : List Ev}
    (h : ensureAttempt I p n st = (.done (.ok r), s, v)) : Ev.ensureRet p n r ∈ v := by
  unfold ensureAttempt at h
  rcases h1 : I.listFolders st.rem p with ⟨o, r1⟩
  rw [h1] at h
  cases o with
  | ok entries =>
    dsimp only at h
    rcases h2 : entries.find? (fun e => e.1 == n) with _ | e
    · rw [h2] at h
      dsimp only at h
      rcases h3 : I.createFolder r1 p n with ⟨o2, r2⟩
      rw [h3] at h
      cases o2 with
      | ok fid =>
        simp only [Prod.mk.injEq, AttRes.done.injEq, Except.ok.injEq] at h
        rw [← h.2.2, ← h.1]
        simp
      | conflict =>
        dsimp only at h
        rcases hbb : branch409 I p n ⟨r2, true⟩ with ⟨bres, bs, bevs⟩
        rw [hbb] at h
        simp only [Prod.mk.injEq, AttRes.done.injEq] at h
        rcases h with ⟨hb, -, hv⟩
        rw [← hv]
        have hm : Ev.ensureRet p n r ∈ bevs := branch409_ret_mem (by rw [hbb, hb])
        simp [hm]
      | transient c => simp at h
    · rw [h2] at h
      simp only [Prod.mk.injEq, AttRes.done.injEq, Except.ok.injEq] at h
      rw [← h.2.2, ← h.1]
      simp
  | conflict =>
    dsimp only at h
    rcases hbb : branch409 I p n ⟨r1, true⟩ with ⟨bres, bs, bevs⟩
    rw [hbb] at h
    simp only [Prod.mk.injEq, AttRes.done.injEq] at h
    rcases h with ⟨hb, -, hv⟩
    rw [← hv]
    have hm : Ev.ensureRet p n r ∈ bevs := branch409_ret_mem (by rw [hbb, hb])
    simp [hm]
  | transient c => simp at h

/-- A successful `ensure_folder` call records the returned ref of the
requested folder in its trace. -/
theorem ensure_folder_ret_mem {σ : Type} {I : RemoteIface σ} {p : Nat} {n : String}
    {st s : RunSt σ} {r : Nat} {evs : List Ev}
    (h : ensure_folder I p n st = (.ok r, s, evs)) : Ev.ensureRet p n r ∈ evs := by
  unfold ensure_folder at h
  rcases h1 : ensureAttempt I p n st with ⟨a1, st1, v1⟩
  cases a1 with
  | done r0 =>
    rw [retry3_done h1] at h
    simp only [Prod.mk.injEq] at h
    rcases h with ⟨h0, -, hv⟩
    rw [← hv]
    exact ensureAttempt_ret_mem (by rw [h1, h0])
  | retry e1 =>
    rcases h2 : ensureAttempt I p n st1 with ⟨a2, st2, v2⟩
    cases a2 with
    | done r0 =>
      rw [retry3_retry1 h1 h2] at h
      simp only [Prod.mk.injEq] at h
      rcases h with ⟨h0, -, hv⟩
      rw [← hv]
      have := ensureAttempt_ret_mem (show ensureAttempt I p n st1 = (.done (.ok r), st2, v2) by
        rw [h2, h0])
      simp [this]
    | retry e2 =>
      rcases h3 : ensureAttempt I p n st2 with ⟨a3, st3, v3⟩
      cases a3 with
      | done r0 =>
        rw [retry3_retry2 h1 h2 h3] at h
        simp only [Prod.mk.injEq] at h
        rcases h with ⟨h0, -, hv⟩
        rw [← hv]
        have := ensureAttempt_ret_mem (show ensureAttempt I p n st2 = (.done (.ok r), st3, v3) by
          rw [h3, h0])
        simp [this]
      | retry e3 =>
        rw [retry3_retry3 h1 h2 h3] at h
        simp at h

theorem upload_call_mem {σ : Type} (I : RemoteIface σ) (p : Nat) (n : String)
    (fsize : Option Nat) (st : RunSt σ) :
    Ev.uploadCall p n ∈ (upload_file I p n fsize st).2.2 := by
  cases fsize <;> simp [upload_file]

theorem processChain_refs {σ : Type} (I : RemoteIface σ) :
    ∀ (parts : List String) (parent : Nat) (st : RunSt σ) (cur : Nat) (s : RunSt σ)
      (evs : List Ev), processChain I parent parts st = (.ok cur, s, evs) →
      ∃ refs : List Nat, refs.length = parts.length ∧ cur = refs.getLastD parent ∧
        (chainEvs parent parts refs).Sublist evs
  | [], parent, st, cur, s, evs, h => by
    simp only [processChain, Prod.mk.injEq, Except.ok.injEq] at h
    exact ⟨[], rfl, h.1.symm, by rw [← h.2.2]; exact List.Sublist.refl _⟩
  | p :: ps, parent, st, cur, s, evs, h => by
    rcases he : ensure_folder I parent p st with ⟨res, st1, evs1⟩
    cases res with
    | error e =>
      rw [processChain] at h
      rw [he] at h
      simp at h
    | ok r =>
      rw [processChain] at h
      rw [he] at h
      dsimp only at h
      simp only [Prod.mk.injEq] at h
      rcases h with ⟨hk, -, hv⟩
      rcases hkk : processChain I r ps st1 with ⟨kres, ks, kevs⟩
      rw [hkk] at hk hv
      simp only at hk hv
      rcases processChain_refs I ps r st1 cur ks kevs (by rw [hkk, hk]) with
        ⟨refs, hlen, hlast, hsub⟩
      refine ⟨r :: refs, by simp [hlen], by rw [List.getLastD_cons, ← hlast], ?_⟩
      rw [← hv]
      have h1 : List.Sublist [Ev.ensureRet parent p r] evs1 :=
        List.singleton_sublist.mpr (ensure_folder_ret_mem he)
      exact List.Sublist.append h1 hsub

theorem processFiles_upload_sub {σ : Type} (I : RemoteIface σ) (cur : Nat) :
    ∀ (fs : List LFile) (st : RunSt σ), (processFiles I cur fs st).1 = .ok () →
      ∀ f ∈ fs, List.Sublist [Ev.uploadCall cur f.name] (processFiles I cur fs st).2.2
  | [], st, _, f, hf => by simp at hf
  | f0 :: fs, st, h, f, hf => by
    rcases hu : upload_file I cur f0.name f0.size st with ⟨r, st1, evs1⟩
    cases r with
    | error e =>
      rw [processFiles] at h
      rw [hu] at h
      simp at h
    | ok u =>
      cases u
      rw [processFiles] at h ⊢
      rw [hu] at h ⊢
      dsimp only at h ⊢
      rcases List.mem_cons.mp hf with rfl | hf2
      · have hm : Ev.uploadCall cur f.name ∈ evs1 := by
          have := upload_call_mem I cur f.name f.size st
          rw [hu] at this
          exact this
        exact (List.singleton_sublist.mpr hm).trans (List.sublist_append_left _ _)
      · exact (processFiles_upload_sub I cur fs st1 h f hf2).trans
          (List.sublist_append_right _ _)

/-- Claim C8, core: in a successful walk, every file's upload call is
preceded (in trace order) by the completed folder-ensure chain of its
directory, each segment's ref feeding the next, and the final ref is the
upload's parent. -/
theorem processEntries_order {σ : Type} (I : RemoteIface σ) (root : Nat) :
    ∀ (es : List WalkEntry) (st : RunSt σ), (processEntries I root es st).1 = .ok () →
      ∀ en ∈ es, ∀ f ∈ en.2, ∃ refs : List Nat, refs.length = en.1.length ∧
        (chainEvs root en.1 refs ++ [Ev.uploadCall (refs.getLastD root) f.name]).Sublist
          (processEntries I root es st).2.2
  | [], st, _, en, hen, f, hf => by simp at hen
  | e :: es, st, h, en, hen, f, hf => by
    rcases hc : processChain I root e.1 st with ⟨cres, st1, evs1⟩
    cases cres with
    | error err =>
      rw [processEntries] at h
      rw [hc] at h
      simp at h
    | ok cur =>
      rcases hpf : processFiles I cur e.2 st1 with ⟨fres, st2, evs2⟩
      cases fres with
      | error err =>
        rw [processEntries] at h
        rw [hc] at h
        dsimp only at h
        rw [hpf] at h
        simp at h
      | ok u =>
        cases u
        rw [processEntries] at h ⊢
        rw [hc] at h ⊢
        dsimp only at h ⊢
        rw [hpf] at h ⊢
        dsimp only at h ⊢
        rcases List.mem_cons.mp hen with rfl | hen2
        · rcases processChain_refs I en.1 root st cur st1 evs1 hc with
            ⟨refs, hlen, hlast, hsub⟩
          refine ⟨refs, hlen, ?_⟩
          have hup : List.Sublist [Ev.uploadCall (refs.getLastD root) f.name] evs2 := by
            have := processFiles_upload_sub I cur en.2 st1 (by rw [hpf]) f hf
            rw [hpf] at this
            rw [← hlast]
            exact this
          have hfront := List.Sublist.append hsub hup
          refine hfront.trans ?_
          rw [← List.append_assoc]
          exact List.sublist_append_left _ _
        · rcases processEntries_order I root es st2 h en hen2 f hf with ⟨refs, hlen, hsub⟩
          refine ⟨refs, hlen, hsub.trans ?_⟩
          exact (List.sublist_append_right _ _).trans (List.sublist_append_right _ _)

/-- Claim C8: for every file processed during a sync run that completes,
the folder-ensure calls of every path segment of the file's directory
chain complete before the upload call for the file is issued; each
segment's returned ref is the parent passed to the next segment, and the
final segment's ref is the parent of the upload. -/
theorem folder_before_file {σ : Type} (I : RemoteIface σ) (walk : List WalkEntry) (root : Nat)
    (st : RunSt σ) (h : (upload_directory I walk root st).1 = .ok ()) :
    ∀ en ∈ walk, ∀ f ∈ en.2, ∃ refs : List Nat, refs.length = en.1.length ∧
      (chainEvs root en.1 refs ++ [Ev.uploadCall (refs.getLastD root) f.name]).Sublist
        (upload_directory I walk root st).2.2 := by
  intro en hen f hf
  have hres : (processEntries I root walk st).1 = .ok () := h
  rcases processEntries_order I root walk st hres en hen f hf with ⟨refs, hlen, hsub⟩
  exact ⟨refs, hlen, hsub.trans (List.sublist_cons_self _ _)⟩

/-- Claim C8, witness: a file at `a/b/f` in an empty remote — the trace
contains the ensure chain for `a` then `b` before the upload call. -/
theorem folder_before_file_witness :
    ∃ refs : List Nat, refs.length = 2 ∧
      (chainEvs 1 ["a", "b"] refs ++ [Ev.uploadCall (refs.getLastD 1) "f"]).Sublist
        ((upload_directory scriptIface [(["a", "b"], [⟨"f", some 4⟩])] 1
          ⟨⟨[], [], [], [], []⟩, false⟩).2.2) :=
  folder_before_file scriptIface [(["a", "b"], [⟨"f", some 4⟩])] 1
    ⟨⟨[], [], [], [], []⟩, false⟩ (by rfl) (["a", "b"], [⟨"f", some 4⟩]) (by simp)
    ⟨"f", some 4⟩ (by simp)

/-! ## Claim C3: idempotence against the honest remote

The remote repository itself, behaving per its contract (spec section 6):
`listChildren` filtered queries, `createFolder`/`uploadFile` failing with
Conflict exactly when the name is already taken under the parent by any
child, fresh ids for created folders, children appended in creation
order. -/

structure Remote where
  nextId : Nat
  /-- folders as (parent, name, id) in creation order -/
  folders : List (Nat × String × Nat)
  /-- files as (parent, name) in creation order -/
  files : List (Nat × String)
  deriving Repr, DecidableEq

def foldersUnder (R : Remote) (p : Nat) : List (String × Nat) :=
  (R.folders.filter (fun f => f.1 == p)).map (fun f => (f.2.1, f.2.2))

def filesUnder (R : Remote) (p : Nat) : List String :=
  (R.files.filter (fun f => f.1 == p)).map (fun f => f.2)

/-- A same-named child (folder or file) already exists under `p`. -/
def nameTaken (R : Remote) (p : Nat) (n : String) : Bool :=
  (foldersUnder R p).any (fun e => e.1 == n) || (filesUnder R p).contains n

def honest : RemoteIface Remote where
  listFolders := fun R p => (.ok (foldersUnder R p), R)
  listAll := fun R p =>
    (.ok ((foldersUnder R p).map (fun e => (e.1, e.2, true)) ++
      (filesUnder R p).map (fun m => (m, 0, false))), R)
  createFolder := fun R p n =>
    if nameTaken R p n then (.conflict, R)
    else (.ok R.nextId, ⟨R.nextId + 1, R.folders ++ [(p, n, R.nextId)], R.files⟩)
  listFiles := fun R p => (.ok (filesUnder R p), R)
  uploadFile := fun R p n =>
    if nameTaken R p n then (.conflict, R)
    else (.ok (), ⟨R.nextId, R.folders, R.files ++ [(p, n)]⟩)

/-! Closed forms of the operations against the honest remote. -/

theorem honest_ensure_found {R : Remote} {p : Nat} {n : String} {e : String × Nat} (h : Bool)
    (hfind : (foldersUnder R p).find? (fun x => x.1 == n) = some e) :
    ensure_folder honest p n ⟨R, h⟩ =
      (.ok e.2, ⟨R, true⟩,
        sessEvs h ++ [.getFolders p, .incSkippedFolders, .ensureRet p n e.2]) := by
  have ha : ensureAttempt honest p n ⟨R, h⟩ =
      (.done (.ok e.2), ⟨R, true⟩,
        sessEvs h ++ [.getFolders p, .incSkippedFolders, .ensureRet p n e.2]) := by
    unfold ensureAttempt honest
    simp only [hfind]
  unfold ensure_folder
  rw [retry3_done ha]

theorem honest_ensure_create {R : Remote} {p : Nat} {n : String} (h : Bool)
    (hfind : (foldersUnder R p).find? (fun x => x.1 == n) = none)
    (htaken : nameTaken R p n = false) :
    ensure_folder honest p n ⟨R, h⟩ =
      (.ok R.nextId, ⟨⟨R.nextId + 1, R.folders ++ [(p, n, R.nextId)], R.files⟩, true⟩,
        sessEvs h ++ [.getFolders p, .postFolder p n, .incCreatedFolders,
          .ensureRet p n R.nextId]) := by
  have ha : ensureAttempt honest p n ⟨R, h⟩ =
      (.done (.ok R.nextId), ⟨⟨R.nextId + 1, R.folders ++ [(p, n, R.nextId)], R.files⟩, true⟩,
        sessEvs h ++ [.getFolders p, .postFolder p n, .incCreatedFolders,
          .ensureRet p n R.nextId]) := by
    unfold ensureAttempt honest
    simp only [hfind, htaken]
    rw [if_neg (by simp)]
  unfold ensure_folder
  rw [retry3_done ha]

theorem honest_ensure_409_reuse {R : Remote} {p : Nat} {n : String} {e : String × Nat}
    {rest : List (String × Nat)} (h : Bool)
    (hfind : (foldersUnder R p).find? (fun x => x.1 == n) = none)
    (htaken : nameTaken R p n = true) (hne : foldersUnder R p = e :: rest) :
    ensure_folder honest p n ⟨R, h⟩ =
      (.ok e.2, ⟨R, true⟩,
        sessEvs h ++ [.getFolders p, .postFolder p n, .incSkippedFolders, .getFolders p,
          .ensureRet p n e.2]) := by
  have ha : ensureAttempt honest p n ⟨R, h⟩ =
      (.done (.ok e.2), ⟨R, true⟩,
        sessEvs h ++ [.getFolders p, .postFolder p n, .incSkippedFolders, .getFolders p,
          .ensureRet p n e.2]) := by
    unfold ensureAttempt branch409 honest
    simp only [hfind, htaken]
    simp only [if_true]
    simp only [hne]
    simp
  unfold ensure_folder
  rw [retry3_done ha]

theorem honest_file_exists (R : Remote) (h : Bool) (p : Nat) (n : String) :
    file_exists honest p n ⟨R, h⟩ =
      (.ok ((filesUnder R p).contains n), ⟨R, true⟩, sessEvs h ++ [.getFiles p]) := by
  have ha : feAttempt honest p n ⟨R, h⟩ =
      (.done (.ok ((filesUnder R p).contains n)), ⟨R, true⟩, sessEvs h ++ [.getFiles p]) := by
    unfold feAttempt honest
    rfl
  unfold file_exists
  rw [retry3_done ha]

theorem honest_ensure_409_vanished {R : Remote} {p : Nat} {n : String} (h : Bool)
    (hfind : (foldersUnder R p).find? (fun x => x.1 == n) = none)
    (htaken : nameTaken R p n = true) (hempty : foldersUnder R p = []) :
    ensure_folder honest p n ⟨R, h⟩ =
      (.error (.folderVanished n), ⟨R, true⟩,
        sessEvs h ++ [.getFolders p, .postFolder p n, .incSkippedFolders, .getFolders p,
          .getAll p]) := by
  have ha : ensureAttempt honest p n ⟨R, h⟩ =
      (.done (.error (.folderVanished n)), ⟨R, true⟩,
        sessEvs h ++ [.getFolders p, .postFolder p n, .incSkippedFolders, .getFolders p,
          .getAll p]) := by
    unfold ensureAttempt branch409 honest
    simp only [hfind, htaken]
    simp only [if_true]
    simp only [hempty]
    rw [List.find?_eq_none.mpr ?hnone]
    case hnone =>
      intro x hx
      simp only [List.map_nil, List.nil_append] at hx
      rcases List.mem_map.mp hx with ⟨m, hm, rfl⟩
      simp
    simp
  unfold ensure_folder
  rw [retry3_done ha]

theorem honest_upload_exists {R : Remote} {p : Nat} {n : String} (h : Bool) (sz : Nat)
    (hc : (filesUnder R p).contains n = true) :
    upload_file honest p n (some sz) ⟨R, h⟩ =
      (.ok (), ⟨R, true⟩,
        .uploadCall p n :: (sessEvs h ++ (sessEvs true ++ [.getFiles p]) ++
          [.incSkippedFiles, .incSkippedBytes sz])) := by
  have ha : uploadAttempt honest p n sz ⟨R, h⟩ =
      (.done (.ok ()), ⟨R, true⟩,
        sessEvs h ++ (sessEvs true ++ [.getFiles p]) ++
          [.incSkippedFiles, .incSkippedBytes sz]) := by
    unfold uploadAttempt
    rw [honest_file_exists R true p n]
    simp only [hc]
  unfold upload_file
  simp only [retry3_done ha]

theorem honest_upload_conflict {R : Remote} {p : Nat} {n : String} (h : Bool) (sz : Nat)
    (hc : (filesUnder R p).contains n = false) (htaken : nameTaken R p n = true) :
    upload_file honest p n (some sz) ⟨R, h⟩ =
      (.ok (), ⟨R, true⟩,
        .uploadCall p n :: (sessEvs h ++ (sessEvs true ++ [.getFiles p]) ++
          [.postFile p n, .incSkippedFiles, .incSkippedBytes sz])) := by
  have ha : uploadAttempt honest p n sz ⟨R, h⟩ =
      (.done (.ok ()), ⟨R, true⟩,
        sessEvs h ++ (sessEvs true ++ [.getFiles p]) ++
          [.postFile p n, .incSkippedFiles, .incSkippedBytes sz]) := by
    unfold uploadAttempt
    rw [honest_file_exists R true p n]
    simp only [hc]
    unfold honest
    simp only [htaken]
    simp only [if_true]
  unfold upload_file
  simp only [retry3_done ha]

theorem honest_upload_new {R : Remote} {p : Nat} {n : String} (h : Bool) (sz : Nat)
    (hc : (filesUnder R p).contains n = false) (htaken : nameTaken R p n = false) :
    upload_file honest p n (some sz) ⟨R, h⟩ =
      (.ok (), ⟨⟨R.nextId, R.folders, R.files ++ [(p, n)]⟩, true⟩,
        .uploadCall p n :: (sessEvs h ++ (sessEvs true ++ [.getFiles p]) ++
          [.postFile p n, .incUploadedFiles, .incUploadedBytes sz])) := by
  have ha : uploadAttempt honest p n sz ⟨R, h⟩ =
      (.done (.ok ()), ⟨⟨R.nextId, R.folders, R.files ++ [(p, n)]⟩, true⟩,
        sessEvs h ++ (sessEvs true ++ [.getFiles p]) ++
          [.postFile p n, .incUploadedFiles, .incUploadedBytes sz]) := by
    unfold uploadAttempt
    rw [honest_file_exists R true p n]
    simp only [hc]
    unfold honest
    simp only [htaken]
    rw [if_neg (by simp)]
  unfold upload_file
  simp only [retry3_done ha]

/-! Abstract views of the honest remote and the simulation order used for
idempotence. -/

/-- Some folder named `n` exists under `p`. -/
def hasFolder (R : Remote) (p : Nat) (n : String) : Prop :=
  ∃ e ∈ R.folders, e.1 = p ∧ e.2.1 = n

/-- A file named `n` exists under `p`. -/
def hasFile (R : Remote) (p : Nat) (n : String) : Prop := (p, n) ∈ R.files

instance (R : Remote) (p : Nat) (n : String) : Decidable (hasFolder R p n) := by
  unfold hasFolder
  infer_instance

instance (R : Remote) (p : Nat) (n : String) : Decidable (hasFile R p n) := by
  unfold hasFile
  infer_instance

theorem find1_none_iff {R : Remote} {p : Nat} {n : String} :
    (foldersUnder R p).find? (fun x => x.1 == n) = none ↔ ¬ hasFolder R p n := by
  rw [List.find?_eq_none]
  unfold foldersUnder hasFolder
  constructor
  · rintro hf ⟨e, he, hp, hn⟩
    have : (e.2.1, e.2.2) ∈ (R.folders.filter (fun f => f.1 == p)).map
        (fun f => (f.2.1, f.2.2)) :=
      List.mem_map.mpr ⟨e, List.mem_filter.mpr ⟨he, by simp [hp]⟩, rfl⟩
    have := hf _ this
    simp [hn] at this
  · intro hne x hx hbeq
    rcases List.mem_map.mp hx with ⟨e, hef, rfl⟩
    rcases List.mem_filter.mp hef with ⟨he, hep⟩
    exact hne ⟨e, he, by simpa using hep, by simpa using hbeq⟩

theorem contains_iff {R : Remote} {p : Nat} {n : String} :
    (filesUnder R p).contains n = true ↔ hasFile R p n := by
  unfold filesUnder hasFile
  rw [List.elem_iff]
  constructor
  · intro hm
    rcases List.mem_map.mp hm with ⟨f, hff, rfl⟩
    rcases List.mem_filter.mp hff with ⟨hf, hfp⟩
    have : f = (p, f.2) := by
      have : f.1 = p := by simpa using hfp
      exact Prod.ext this rfl
    rw [← this]
    exact hf
  · intro hm
    exact List.mem_map.mpr ⟨(p, n), List.mem_filter.mpr ⟨hm, by simp⟩, rfl⟩

theorem nameTaken_true_iff {R : Remote} {p : Nat} {n : String} :
    nameTaken R p n = true ↔ hasFolder R p n ∨ hasFile R p n := by
  unfold nameTaken
  rw [Bool.or_eq_true, List.any_eq_true]
  constructor
  · rintro (⟨x, hx, hbeq⟩ | hc)
    · left
      unfold foldersUnder at hx
      rcases List.mem_map.mp hx with ⟨e, hef, rfl⟩
      rcases List.mem_filter.mp hef with ⟨he, hep⟩
      exact ⟨e, he, by simpa using hep, by simpa using hbeq⟩
    · exact Or.inr (contains_iff.mp hc)
  · rintro (⟨e, he, hp, hn⟩ | hf)
    · refine Or.inl ⟨(e.2.1, e.2.2), ?_, by simpa using hn⟩
      unfold foldersUnder
      exact List.mem_map.mpr ⟨e, List.mem_filter.mpr ⟨he, by simp [hp]⟩, rfl⟩
    · exact Or.inr (contains_iff.mpr hf)

theorem nameTaken_false_iff {R : Remote} {p : Nat} {n : String} :
    nameTaken R p n = false ↔ ¬ hasFolder R p n ∧ ¬ hasFile R p n := by
  rw [← Bool.not_eq_true, nameTaken_true_iff]
  tauto

theorem contains_false_iff {R : Remote} {p : Nat} {n : String} :
    (filesUnder R p).contains n = false ↔ ¬ hasFile R p n := by
  rw [← Bool.not_eq_true, contains_iff]

/-- The honest remote only ever appends children. -/
def Remote.ext (R R2 : Remote) : Prop :=
  (∃ df, R2.folders = R.folders ++ df) ∧ ∃ dl, R2.files = R.files ++ dl

/-- The simulation order for idempotence: `R2` extends `R`, adds no folder
where `R` already had a same-named file, and adds no file where `R`
already had a same-named folder. -/
def Remote.sim (R R2 : Remote) : Prop :=
  Remote.ext R R2 ∧
  (∀ p n, hasFile R p n → hasFolder R2 p n → hasFolder R p n) ∧
  (∀ p n, hasFolder R p n → hasFile R2 p n → hasFile R p n)

theorem Remote.ext_refl (R : Remote) : Remote.ext R R := ⟨⟨[], by simp⟩, ⟨[], by simp⟩⟩

theorem Remote.sim_refl (R : Remote) : Remote.sim R R :=
  ⟨Remote.ext_refl R, fun _ _ _ h => h, fun _ _ _ h => h⟩

theorem Remote.ext_hasFolder {R R2 : Remote} (h : Remote.ext R R2) {p : Nat} {n : String}
    (hf : hasFolder R p n) : hasFolder R2 p n := by
  rcases h.1 with ⟨df, hdf⟩
  rcases hf with ⟨e, he, hp, hn⟩
  exact ⟨e, by rw [hdf]; exact List.mem_append_left _ he, hp, hn⟩

theorem Remote.ext_hasFile {R R2 : Remote} (h : Remote.ext R R2) {p : Nat} {n : String}
    (hf : hasFile R p n) : hasFile R2 p n := by
  rcases h.2 with ⟨dl, hdl⟩
  unfold hasFile at hf ⊢
  rw [hdl]
  exact List.mem_append_left _ hf

theorem Remote.ext_trans {R R2 R3 : Remote} (h1 : Remote.ext R R2) (h2 : Remote.ext R2 R3) :
    Remote.ext R R3 := by
  rcases h1 with ⟨⟨df1, hf1⟩, ⟨dl1, hl1⟩⟩
  rcases h2 with ⟨⟨df2, hf2⟩, ⟨dl2, hl2⟩⟩
  exact ⟨⟨df1 ++ df2, by rw [hf2, hf1, List.append_assoc]⟩,
    ⟨dl1 ++ dl2, by rw [hl2, hl1, List.append_assoc]⟩⟩

theorem Remote.sim_trans {R R2 R3 : Remote} (h1 : Remote.sim R R2) (h2 : Remote.sim R2 R3) :
    Remote.sim R R3 := by
  refine ⟨Remote.ext_trans h1.1 h2.1, ?_, ?_⟩
  · intro p n hfile hfold3
    exact h1.2.1 p n hfile (h2.2.1 p n (Remote.ext_hasFile h1.1 hfile) hfold3)
  · intro p n hfold hfile3
    exact h1.2.2 p n hfold (h2.2.2 p n (Remote.ext_hasFolder h1.1 hfold) hfile3)

theorem foldersUnder_ext {R R2 : Remote} (h : Remote.ext R R2) (p : Nat) :
    ∃ d, foldersUnder R2 p = foldersUnder R p ++ d := by
  rcases h.1 with ⟨df, hdf⟩
  unfold foldersUnder
  rw [hdf, List.filter_append, List.map_append]
  exact ⟨_, rfl⟩

/-! Every honest operation moves the remote state up the simulation
order. -/

theorem honest_ensure_sim (R : Remote) (h : Bool) (p : Nat) (n : String) :
    Remote.sim R (ensure_folder honest p n ⟨R, h⟩).2.1.rem := by
  rcases hfind : (foldersUnder R p).find? (fun x => x.1 == n) with _ | e
  · cases htaken : nameTaken R p n
    · rw [honest_ensure_create h hfind htaken]
      refine ⟨⟨⟨[(p, n, R.nextId)], rfl⟩, ⟨[], by simp⟩⟩, ?_, ?_⟩
      · intro q m hfile hfold2
        rcases hfold2 with ⟨e, he, hq, hm⟩
        rcases List.mem_append.mp he with he1 | he2
        · exact ⟨e, he1, hq, hm⟩
        · simp only [List.mem_singleton] at he2
          subst he2
          simp only at hq hm
          subst hq
          subst hm
          exact absurd hfile (nameTaken_false_iff.mp htaken).2
      · intro q m _ hfile2
        exact hfile2
    · cases hflist : foldersUnder R p with
      | nil =>
        rw [honest_ensure_409_vanished h hfind htaken hflist]
        exact Remote.sim_refl R
      | cons e rest =>
        rw [honest_ensure_409_reuse h hfind htaken hflist]
        exact Remote.sim_refl R
  · rw [honest_ensure_found h hfind]
    exact Remote.sim_refl R

theorem honest_upload_sim (R : Remote) (h : Bool) (p : Nat) (n : String) (fsize : Option Nat) :
    Remote.sim R (upload_file honest p n fsize ⟨R, h⟩).2.1.rem := by
  cases fsize with
  | none => exact Remote.sim_refl R
  | some sz =>
    cases hc : (filesUnder R p).contains n
    · cases htaken : nameTaken R p n
      · rw [honest_upload_new h sz hc htaken]
        refine ⟨⟨⟨[], by simp⟩, ⟨[(p, n)], rfl⟩⟩, ?_, ?_⟩
        · intro q m hfile hfold2
          exact hfold2
        · intro q m hfold hfile2
          rcases List.mem_append.mp hfile2 with hf1 | hf2
          · exact hf1
          · simp only [List.mem_singleton] at hf2
            rw [Prod.mk.injEq] at hf2
            rcases hf2 with ⟨rfl, rfl⟩
            exact absurd hfold (nameTaken_false_iff.mp htaken).1
      · rw [honest_upload_conflict h sz hc htaken]
        exact Remote.sim_refl R
    · rw [honest_upload_exists h sz hc]
      exact Remote.sim_refl R

theorem processChain_sim :
    ∀ (parts : List String) (parent : Nat) (st : RunSt Remote),
      Remote.sim st.rem (processChain honest parent parts st).2.1.rem
  | [], parent, st => Remote.sim_refl st.rem
  | p :: ps, parent, st => by
    rcases he : ensure_folder honest parent p st with ⟨res, st1, evs1⟩
    have hs1 : Remote.sim st.rem st1.rem := by
      have := honest_ensure_sim st.rem st.hasSession parent p
      rw [he] at this
      exact this
    cases res with
    | error e =>
      rw [processChain]
      rw [he]
      exact hs1
    | ok r =>
      rw [processChain]
      rw [he]
      dsimp only
      exact Remote.sim_trans hs1 (processChain_sim ps r st1)

theorem processFiles_sim (cur : Nat) :
    ∀ (fs : List LFile) (st : RunSt Remote),
      Remote.sim st.rem (processFiles honest cur fs st).2.1.rem
  | [], st => Remote.sim_refl st.rem
  | f :: fs, st => by
    rcases hu : upload_file honest cur f.name f.size st with ⟨r, st1, evs1⟩
    have hs1 : Remote.sim st.rem st1.rem := by
      have := honest_upload_sim st.rem st.hasSession cur f.name f.size
      rw [hu] at this
      exact this
    cases r with
    | error e =>
      rw [processFiles]
      rw [hu]
      exact hs1
    | ok u =>
      rw [processFiles]
      rw [hu]
      dsimp only
      exact Remote.sim_trans hs1 (processFiles_sim cur fs st1)

theorem processEntries_sim (root : Nat) :
    ∀ (es : List WalkEntry) (st : RunSt Remote),
      Remote.sim st.rem (processEntries honest root es st).2.1.rem
  | [], st => Remote.sim_refl st.rem
  | e :: es, st => by
    rcases hc : processChain honest root e.1 st with ⟨cres, st1, evs1⟩
    have hs1 : Remote.sim st.rem st1.rem := by
      have := processChain_sim e.1 root st
      rw [hc] at this
      exact this
    cases cres with
    | error err =>
      rw [processEntries]
      rw [hc]
      exact hs1
    | ok cur =>
      rcases hf : processFiles honest cur e.2 st1 with ⟨fres, st2, evs2⟩
      have hs2 : Remote.sim st1.rem st2.rem := by
        have := processFiles_sim cur e.2 st1
        rw [hf] at this
        exact this
      cases fres with
      | error err =>
        rw [processEntries]
        rw [hc]
        dsimp only
        rw [hf]
        exact Remote.sim_trans hs1 hs2
      | ok u =>
        rw [processEntries]
        rw [hc]
        dsimp only
        rw [hf]
        dsimp only
        exact Remote.sim_trans hs1 (Remote.sim_trans hs2 (processEntries_sim root es st2))

/-! Re-execution: after a successful first pass, the same operation
against any simulation-larger state succeeds with the same ref and
changes nothing. -/

theorem fu_single (p : Nat) (n : String) (i : Nat) :
    foldersUnder ⟨i + 1, [(p, n, i)], []⟩ p = [(n, i)] := by
  simp [foldersUnder]

theorem honest_ensure_reexec {R R2 RF : Remote} {h h2 : Bool} {p : Nat} {n : String} {r : Nat}
    {evs : List Ev} (hf : Bool)
    (h1 : ensure_folder honest p n ⟨R, h⟩ = (.ok r, ⟨R2, h2⟩, evs))
    (hsim : Remote.sim R RF) (hsim2 : Remote.sim R2 RF) :
    ∃ evs2, ensure_folder honest p n ⟨RF, hf⟩ = (.ok r, ⟨RF, true⟩, evs2) ∧
      evs2.countP isCF = 0 ∧ evs2.countP isUF = 0 := by
  rcases hfind : (foldersUnder R p).find? (fun x => x.1 == n) with _ | e
  · cases htaken : nameTaken R p n
    · -- run 1 created the folder with id R.nextId
      rw [honest_ensure_create h hfind htaken] at h1
      simp only [Prod.mk.injEq, Except.ok.injEq, RunSt.mk.injEq] at h1
      obtain ⟨hr, ⟨hR2, -⟩, -⟩ := h1
      rcases foldersUnder_ext hsim2.1 p with ⟨d, hd⟩
      rw [← hR2] at hd
      have hful : foldersUnder ⟨R.nextId + 1, R.folders ++ [(p, n, R.nextId)], R.files⟩ p =
          foldersUnder R p ++ [(n, R.nextId)] := by
        unfold foldersUnder
        simp
      rw [hful] at hd
      have hfindF : (foldersUnder RF p).find? (fun x => x.1 == n) = some (n, R.nextId) := by
        rw [hd, List.append_assoc, List.find?_append, hfind]
        simp
      subst hr
      exact ⟨_, honest_ensure_found hf hfindF,
        by cases hf <;> simp [sessEvs, List.countP_cons, isCF],
        by cases hf <;> simp [sessEvs, List.countP_cons, isUF]⟩
    · -- run 1 hit the 409 branch
      cases hflist : foldersUnder R p with
      | nil =>
        rw [honest_ensure_409_vanished h hfind htaken hflist] at h1
        simp at h1
      | cons e rest =>
        rw [honest_ensure_409_reuse h hfind htaken hflist] at h1
        simp only [Prod.mk.injEq, Except.ok.injEq, RunSt.mk.injEq] at h1
        obtain ⟨hr, ⟨hR2, -⟩, -⟩ := h1
        have hnofold : ¬ hasFolder R p n := find1_none_iff.mp hfind
        have hfile : hasFile R p n := by
          rcases nameTaken_true_iff.mp htaken with hfo | hfi
          · exact absurd hfo hnofold
          · exact hfi
        have hfileF : hasFile RF p n := Remote.ext_hasFile hsim.1 hfile
        have hnofoldF : ¬ hasFolder RF p n := fun hfo => hnofold (hsim.2.1 p n hfile hfo)
        have hfindF : (foldersUnder RF p).find? (fun x => x.1 == n) = none :=
          find1_none_iff.mpr hnofoldF
        have htakenF : nameTaken RF p n = true := nameTaken_true_iff.mpr (Or.inr hfileF)
        rcases foldersUnder_ext hsim.1 p with ⟨d, hd⟩
        rw [hflist] at hd
        subst hr
        exact ⟨_, honest_ensure_409_reuse hf hfindF htakenF
            (show foldersUnder RF p = e :: (rest ++ d) by simp [hd]),
          by cases hf <;> simp [sessEvs, List.countP_cons, isCF],
          by cases hf <;> simp [sessEvs, List.countP_cons, isUF]⟩
  · -- run 1 found the folder in the first query
    rw [honest_ensure_found h hfind] at h1
    simp only [Prod.mk.injEq, Except.ok.injEq, RunSt.mk.injEq] at h1
    obtain ⟨hr, ⟨hR2, -⟩, -⟩ := h1
    rcases foldersUnder_ext hsim.1 p with ⟨d, hd⟩
    have hfindF : (foldersUnder RF p).find? (fun x => x.1 == n) = some e := by
      rw [hd, List.find?_append, hfind]
      rfl
    subst hr
    exact ⟨_, honest_ensure_found hf hfindF,
      by cases hf <;> simp [sessEvs, List.countP_cons, isCF],
      by cases hf <;> simp [sessEvs, List.countP_cons, isUF]⟩

theorem honest_upload_reexec {R R2 RF : Remote} {h h2 : Bool} {p : Nat} {n : String}
    {fsize : Option Nat} {evs : List Ev} (hf : Bool)
    (h1 : upload_file honest p n fsize ⟨R, h⟩ = (.ok (), ⟨R2, h2⟩, evs))
    (hsim : Remote.sim R RF) (hsim2 : Remote.sim R2 RF) :
    ∃ evs2, upload_file honest p n fsize ⟨RF, hf⟩ = (.ok (), ⟨RF, true⟩, evs2) ∧
      evs2.countP isCF = 0 ∧ evs2.countP isUF = 0 := by
  cases fsize with
  | none => simp [upload_file] at h1
  | some sz =>
    have hskip : ∀ hcF : (filesUnder RF p).contains n = true,
        ∃ evs2, upload_file honest p n (some sz) ⟨RF, hf⟩ = (.ok (), ⟨RF, true⟩, evs2) ∧
          evs2.countP isCF = 0 ∧ evs2.countP isUF = 0 := by
      intro hcF
      refine ⟨_, honest_upload_exists hf sz hcF, ?_, ?_⟩
      · cases hf <;> simp [sessEvs, List.countP_cons, isCF]
      · cases hf <;> simp [sessEvs, List.countP_cons, isUF]
    cases hc : (filesUnder R p).contains n
    · cases htaken : nameTaken R p n
      · -- run 1 uploaded the file
        rw [honest_upload_new h sz hc htaken] at h1
        simp only [Prod.mk.injEq, RunSt.mk.injEq] at h1
        obtain ⟨-, ⟨hR2, -⟩, -⟩ := h1
        have hfile2 : hasFile R2 p n := by
          rw [← hR2]
          unfold hasFile
          simp
        have hfileF : hasFile RF p n := Remote.ext_hasFile hsim2.1 hfile2
        exact hskip (contains_iff.mpr hfileF)
      · -- run 1 lost the race: 409 counted as a skip
        rw [honest_upload_conflict h sz hc htaken] at h1
        simp only [Prod.mk.injEq, RunSt.mk.injEq] at h1
        obtain ⟨-, ⟨hR2, -⟩, -⟩ := h1
        have hnofile : ¬ hasFile R p n := contains_false_iff.mp hc
        have hfold : hasFolder R p n := by
          rcases nameTaken_true_iff.mp htaken with hfo | hfi
          · exact hfo
          · exact absurd hfi hnofile
        have hfoldF : hasFolder RF p n := Remote.ext_hasFolder hsim.1 hfold
        cases hcF : (filesUnder RF p).contains n
        · have htakenF : nameTaken RF p n = true := nameTaken_true_iff.mpr (Or.inl hfoldF)
          refine ⟨_, honest_upload_conflict hf sz hcF htakenF, ?_, ?_⟩
          · cases hf <;> simp [sessEvs, List.countP_cons, isCF]
          · cases hf <;> simp [sessEvs, List.countP_cons, isUF]
        · exact hskip hcF
    · -- run 1 skipped an existing file
      rw [honest_upload_exists h sz hc] at h1
      simp only [Prod.mk.injEq, RunSt.mk.injEq] at h1
      obtain ⟨-, ⟨hR2, -⟩, -⟩ := h1
      have hfileF : hasFile RF p n := Remote.ext_hasFile hsim.1 (by
        rw [← hR2] at hsim2
        exact contains_iff.mp hc)
      exact hskip (contains_iff.mpr hfileF)

theorem processChain_reexec {RF : Remote} :
    ∀ (parts : List String) (parent : Nat) (st : RunSt Remote) (cur : Nat) (stF : RunSt Remote)
      (evs : List Ev) (hf : Bool),
      processChain honest parent parts st = (.ok cur, stF, evs) →
      Remote.sim stF.rem RF → Remote.sim st.rem RF →
      ∃ b evs2, processChain honest parent parts ⟨RF, hf⟩ = (.ok cur, ⟨RF, b⟩, evs2) ∧
        evs2.countP isCF = 0 ∧ evs2.countP isUF = 0
  | [], parent, st, cur, stF, evs, hf, h1, hsimF, hsim => by
    simp only [processChain, Prod.mk.injEq, Except.ok.injEq] at h1
    refine ⟨hf, [], ?_, by simp, by simp⟩
    simp only [processChain, h1.1]
  | p :: ps, parent, ⟨R, h⟩, cur, stF, evs, hf, h1, hsimF, hsim => by
    rcases he : ensure_folder honest parent p ⟨R, h⟩ with ⟨res, ⟨R1, hs1⟩, evs1⟩
    cases res with
    | error e =>
      rw [processChain] at h1
      rw [he] at h1
      simp at h1
    | ok r =>
      rw [processChain] at h1
      rw [he] at h1
      dsimp only at h1
      rcases hk : processChain honest r ps ⟨R1, hs1⟩ with ⟨kres, kst, kevs⟩
      rw [hk] at h1
      simp only [Prod.mk.injEq] at h1
      obtain ⟨hk1, hk2, hk3⟩ := h1
      have hsimA : Remote.sim R R1 := by
        have := honest_ensure_sim R h parent p
        rw [he] at this
        exact this
      have hsimK : Remote.sim R1 kst.rem := by
        have := processChain_sim ps r ⟨R1, hs1⟩
        rw [hk] at this
        exact this
      have hsimKF : Remote.sim kst.rem RF := by
        rw [hk2]
        exact hsimF
      have hsim1F : Remote.sim R1 RF := Remote.sim_trans hsimK hsimKF
      rcases honest_ensure_reexec hf he hsim hsim1F with ⟨evs2a, heqa, ca1, ca2⟩
      rcases processChain_reexec ps r ⟨R1, hs1⟩ cur stF kevs true
        (by rw [hk, hk1, hk2]) hsimF hsim1F with ⟨b, evs2b, heqb, cb1, cb2⟩
      refine ⟨b, evs2a ++ evs2b, ?_, ?_, ?_⟩
      · rw [processChain]
        rw [heqa]
        dsimp only
        rw [heqb]
      · rw [List.countP_append, ca1, cb1]
      · rw [List.countP_append, ca2, cb2]

theorem processFiles_reexec {RF : Remote} (cur : Nat) :
    ∀ (fs : List LFile) (st : RunSt Remote) (stF : RunSt Remote) (evs : List Ev) (hf : Bool),
      processFiles honest cur fs st = (.ok (), stF, evs) →
      Remote.sim stF.rem RF → Remote.sim st.rem RF →
      ∃ b evs2, processFiles honest cur fs ⟨RF, hf⟩ = (.ok (), ⟨RF, b⟩, evs2) ∧
        evs2.countP isCF = 0 ∧ evs2.countP isUF = 0
  | [], st, stF, evs, hf, h1, hsimF, hsim => by
    simp only [processFiles, Prod.mk.injEq] at h1
    exact ⟨hf, [], by simp only [processFiles], by simp, by simp⟩
  | f :: fs, ⟨R, h⟩, stF, evs, hf, h1, hsimF, hsim => by
    rcases hu : upload_file honest cur f.name f.size ⟨R, h⟩ with ⟨res, ⟨R1, hs1⟩, evs1⟩
    cases res with
    | error e =>
      rw [processFiles] at h1
      rw [hu] at h1
      simp at h1
    | ok u =>
      cases u
      rw [processFiles] at h1
      rw [hu] at h1
      dsimp only at h1
      rcases hk : processFiles honest cur fs ⟨R1, hs1⟩ with ⟨kres, kst, kevs⟩
      rw [hk] at h1
      simp only [Prod.mk.injEq] at h1
      obtain ⟨hk1, hk2, hk3⟩ := h1
      have hsimA : Remote.sim R R1 := by
        have := honest_upload_sim R h cur f.name f.size
        rw [hu] at this
        exact this
      have hsimK : Remote.sim R1 kst.rem := by
        have := processFiles_sim cur fs ⟨R1, hs1⟩
        rw [hk] at this
        exact this
      have hsimKF : Remote.sim kst.rem RF := by
        rw [hk2]
        exact hsimF
      have hsim1F : Remote.sim R1 RF := Remote.sim_trans hsimK hsimKF
      rcases honest_upload_reexec hf hu hsim hsim1F with ⟨evs2a, heqa, ca1, ca2⟩
      rcases processFiles_reexec cur fs ⟨R1, hs1⟩ stF kevs true
        (by rw [hk, hk1, hk2]) hsimF hsim1F with ⟨b, evs2b, heqb, cb1, cb2⟩
      refine ⟨b, evs2a ++ evs2b, ?_, ?_, ?_⟩
      · rw [processFiles]
        rw [heqa]
        dsimp only
        rw [heqb]
      · rw [List.countP_append, ca1, cb1]
      · rw [List.countP_append, ca2, cb2]

theorem processEntries_reexec {RF : Remote} (root : Nat) :
    ∀ (es : List WalkEntry) (st : RunSt Remote) (stF : RunSt Remote) (evs : List Ev) (hf : Bool),
      processEntries honest root es st = (.ok (), stF, evs) →
      Remote.sim stF.rem RF → Remote.sim st.rem RF →
      ∃ b evs2, processEntries honest root es ⟨RF, hf⟩ = (.ok (), ⟨RF, b⟩, evs2) ∧
        evs2.countP isCF = 0 ∧ evs2.countP isUF = 0
  | [], st, stF, evs, hf, h1, hsimF, hsim => by
    simp only [processEntries, Prod.mk.injEq] at h1
    exact ⟨hf, [], by simp only [processEntries], by simp, by simp⟩
  | e :: es, st, stF, evs, hf, h1, hsimF, hsim => by
    rcases hc : processChain honest root e.1 st with ⟨cres, st1, evs1⟩
    cases cres with
    | error err =>
      rw [processEntries] at h1
      rw [hc] at h1
      simp at h1
    | ok cur =>
      rcases hpf : processFiles honest cur e.2 st1 with ⟨fres, st2, evs2⟩
      cases fres with
      | error err =>
        rw [processEntries] at h1
        rw [hc] at h1
        dsimp only at h1
        rw [hpf] at h1
        simp at h1
      | ok u =>
        cases u
        rw [processEntries] at h1
        rw [hc] at h1
        dsimp only at h1
        rw [hpf] at h1
        dsimp only at h1
        rcases hk : processEntries honest root es st2 with ⟨kres, kst, kevs⟩
        rw [hk] at h1
        simp only [Prod.mk.injEq] at h1
        obtain ⟨hk1, hk2, hk3⟩ := h1
        have hsimA : Remote.sim st.rem st1.rem := by
          have := processChain_sim e.1 root st
          rw [hc] at this
          exact this
        have hsimB : Remote.sim st1.rem st2.rem := by
          have := processFiles_sim cur e.2 st1
          rw [hpf] at this
          exact this
        have hsimK : Remote.sim st2.rem kst.rem := by
          have := processEntries_sim root es st2
          rw [hk] at this
          exact this
        have hsimKF : Remote.sim kst.rem RF := by
          rw [hk2]
          exact hsimF
        have hsim2F : Remote.sim st2.rem RF := Remote.sim_trans hsimK hsimKF
        have hsim1F : Remote.sim st1.rem RF := Remote.sim_trans hsimB hsim2F
        rcases processChain_reexec e.1 root st cur st1 evs1 hf hc hsim1F hsim with
          ⟨b1, evsA, heqA, cA1, cA2⟩
        rcases processFiles_reexec cur e.2 st1 st2 evs2 b1 hpf hsim2F hsim1F with
          ⟨b2, evsB, heqB, cB1, cB2⟩
        rcases processEntries_reexec root es st2 stF kevs b2
          (by rw [hk, hk1, hk2]) hsimF hsim2F with ⟨b3, evsC, heqC, cC1, cC2⟩
        refine ⟨b3, evsA ++ (evsB ++ evsC), ?_, ?_, ?_⟩
        · rw [processEntries]
          rw [heqA]
          dsimp only
          rw [heqB]
          dsimp only
          rw [heqC]
        · rw [List.countP_append, List.countP_append, cA1, cB1, cC1]
        · rw [List.countP_append, List.countP_append, cA2, cB2, cC2]

/-- Claim C3: if one run of `upload_directory` over a local tree completes
successfully against the honest remote, a second run over the unchanged tree,
started from the state the first run left behind, also completes, leaves the
remote unchanged, records zero created folders and zero uploaded files (every
file is accounted as skipped, `skipped_files = total_files`) and computes the
same `total_files` and `total_size_bytes` as the first run. -/
theorem sync_idempotent {R RF : Remote} {hs b1 : Bool} {walk : List WalkEntry} {root : Nat}
    {evs1 : List Ev}
    (h1 : upload_directory honest walk root ⟨R, hs⟩ = (.ok (), ⟨RF, b1⟩, evs1)) :
    ∃ b evs2,
      upload_directory honest walk root ⟨RF, b1⟩ = (.ok (), ⟨RF, b⟩, evs2) ∧
      (statsAfter Stats.init evs2).created_folders = 0 ∧
      (statsAfter Stats.init evs2).uploaded_files = 0 ∧
      (statsAfter Stats.init evs2).skipped_files = (statsAfter Stats.init evs2).total_files ∧
      (statsAfter Stats.init evs2).total_files = (statsAfter Stats.init evs1).total_files ∧
      (statsAfter Stats.init evs2).total_size_bytes =
        (statsAfter Stats.init evs1).total_size_bytes := by
  rcases hk : processEntries honest root walk ⟨R, hs⟩ with ⟨kres, kst, kevs⟩
  have hA : upload_directory honest walk root ⟨R, hs⟩ =
      ((processEntries honest root walk ⟨R, hs⟩).1,
       (processEntries honest root walk ⟨R, hs⟩).2.1,
       .setTotals (walk.map (fun e => e.2.length)).sum
         (walk.map (fun e => sizesSum e.2)).sum ::
         (processEntries honest root walk ⟨R, hs⟩).2.2) := rfl
  rw [hk] at hA
  dsimp only at hA
  rw [hA] at h1
  simp only [Prod.mk.injEq] at h1
  obtain ⟨hkres, hkst, hevs1⟩ := h1
  have hsim : Remote.sim R RF := by
    have := processEntries_sim root walk ⟨R, hs⟩
    rw [hk] at this
    dsimp only at this
    rw [hkst] at this
    exact this
  have hk2 : processEntries honest root walk ⟨R, hs⟩ = (.ok (), kst, kevs) := by
    rw [hk, hkres]
  have hsimF : Remote.sim kst.rem RF := by
    rw [hkst]
    exact Remote.sim_refl RF
  rcases processEntries_reexec root walk ⟨R, hs⟩ kst kevs b1 hk2 hsimF hsim with
    ⟨b, evs2k, heq2, cCF, cUF⟩
  have hres2 : (processEntries honest root walk ⟨RF, b1⟩).1 = .ok () := by
    rw [heq2]
  rcases processEntries_counts_ok honest root walk ⟨RF, b1⟩ hres2 with ⟨d1, d2, d3⟩
  rw [heq2] at d1 d2 d3
  dsimp only at d1 d2 d3
  have hres1 : (processEntries honest root walk ⟨R, hs⟩).1 = .ok () := by
    rw [hk2]
  rcases processEntries_counts_ok honest root walk ⟨R, hs⟩ hres1 with ⟨e1, e2, e3⟩
  rw [hk] at e3
  dsimp only at e3
  have hB : upload_directory honest walk root ⟨RF, b1⟩ =
      (.ok (), ⟨RF, b⟩, .setTotals (walk.map (fun e => e.2.length)).sum
        (walk.map (fun e => sizesSum e.2)).sum :: evs2k) := by
    have hC : upload_directory honest walk root ⟨RF, b1⟩ =
        ((processEntries honest root walk ⟨RF, b1⟩).1,
         (processEntries honest root walk ⟨RF, b1⟩).2.1,
         .setTotals (walk.map (fun e => e.2.length)).sum
           (walk.map (fun e => sizesSum e.2)).sum ::
           (processEntries honest root walk ⟨RF, b1⟩).2.2) := rfl
    rw [heq2] at hC
    exact hC
  refine ⟨b, _, hB, ?_, ?_, ?_, ?_, ?_⟩
  · rw [statsAfter_created_folders, List.countP_cons, cCF]
    simp [isCF, Stats.init]
  · rw [statsAfter_uploaded_files, List.countP_cons, cUF]
    simp [isUF, Stats.init]
  · rw [statsAfter_skipped_files, statsAfter_cons,
      statsAfter_total_files _ _ d3, List.countP_cons]
    have hsf : Stats.init.skipped_files = 0 := rfl
    have hisSF : isSF (Ev.setTotals (walk.map (fun e => e.2.length)).sum
        (walk.map (fun e => sizesSum e.2)).sum) = false := rfl
    have htf : (applyEv Stats.init (Ev.setTotals (walk.map (fun e => e.2.length)).sum
        (walk.map (fun e => sizesSum e.2)).sum)).total_files =
        (walk.map (fun e => e.2.length)).sum := rfl
    rw [hsf, hisSF, htf]
    simp only [Bool.false_eq_true, if_false]
    rw [fDelta] at d1
    omega
  · rw [← hevs1, statsAfter_cons, statsAfter_cons,
      statsAfter_total_files _ _ d3, statsAfter_total_files _ _ e3]
  · rw [← hevs1, statsAfter_cons, statsAfter_cons,
      statsAfter_total_bytes _ _ d3, statsAfter_total_bytes _ _ e3]

theorem sync_idempotent_witness :
    ∃ b evs2,
      upload_directory honest [([], [⟨"a.txt", some 3⟩]), (["sub"], [⟨"b.txt", some 5⟩])] 1
          ⟨⟨11, [(1, "sub", 10)], [(1, "a.txt"), (10, "b.txt")]⟩, true⟩ =
        (.ok (), ⟨⟨11, [(1, "sub", 10)], [(1, "a.txt"), (10, "b.txt")]⟩, b⟩, evs2) ∧
      (statsAfter Stats.init evs2).created_folders = 0 ∧
      (statsAfter Stats.init evs2).uploaded_files = 0 ∧
      (statsAfter Stats.init evs2).skipped_files = (statsAfter Stats.init evs2).total_files ∧
      (statsAfter Stats.init evs2).total_files =
        (statsAfter Stats.init
          (upload_directory honest [([], [⟨"a.txt", some 3⟩]), (["sub"], [⟨"b.txt", some 5⟩])] 1
            ⟨⟨10, [], []⟩, false⟩).2.2).total_files ∧
      (statsAfter Stats.init evs2).total_size_bytes =
        (statsAfter Stats.init
          (upload_directory honest [([], [⟨"a.txt", some 3⟩]), (["sub"], [⟨"b.txt", some 5⟩])] 1
            ⟨⟨10, [], []⟩, false⟩).2.2).total_size_bytes :=
  @sync_idempotent ⟨10, [], []⟩ ⟨11, [(1, "sub", 10)], [(1, "a.txt"), (10, "b.txt")]⟩
    false true [([], [⟨"a.txt", some 3⟩]), (["sub"], [⟨"b.txt", some 5⟩])] 1 _ (by rfl)

end Alfresco